import Mathlib

/-!
Verification development for the PDF feature-mutation module
`mimicus/featureedit_p3.py` (feature catalog, change validator, byte
patcher, mutation orchestrator).  Python dictionaries are modelled as
association lists with Python `dict` update semantics, byte buffers as
`List Nat`, Python ints as `ℤ` and Python floats as exact rationals `ℚ`.
-/

set_option maxRecDepth 10000
set_option maxHeartbeats 1000000

namespace FeatureEditP3

/-! ## Association-list model of Python dicts -/

/-- Python `d[k]` as an option: the value of the first (and, with unique
keys, only) entry whose key is `k`. -/
def dlookup {β : Type} (k : String) : List (String × β) → Option β
  | [] => none
  | kv :: t => if kv.1 = k then some kv.2 else dlookup k t

/-- Keys of an association list, in order. -/
def dictKeys {β : Type} (d : List (String × β)) : List String := d.map Prod.fst

/-- Python `d[k] = v`: replace the entry for `k` in place if present,
otherwise append a new entry at the end. -/
def dictSet {β : Type} (k : String) (v : β) (d : List (String × β)) :
    List (String × β) :=
  if k ∈ dictKeys d then d.map (fun kv => if kv.1 = k then (k, v) else kv)
  else d ++ [(k, v)]

/-- Python `del d[k]`: remove the entry (all entries) with key `k`. -/
def dictErase {β : Type} (k : String) (d : List (String × β)) :
    List (String × β) :=
  d.filter (fun kv => kv.1 ≠ k)

/-! ## Python runtime values -/

/-- A Python value as it appears in feature vectors and change requests:
an `int`, a `bool`, a `float` (modelled as an exact rational), or an
exception object stored as data (the source stores rejection exceptions
in its report dictionary). -/
inductive PyVal : Type where
  | i (n : ℤ)
  | b (v : Bool)
  | f (q : ℚ)
  | exc
  deriving DecidableEq

/-- The declared type of a feature (`'type'` in the catalog):
`int`, `bool` or `float`. -/
inductive FType : Type where
  | int
  | bool
  | float
  deriving DecidableEq

/-- Python `type(v) == t` for the three catalog types (in Python 3,
`type(True) == int` is `False`, so the three are disjoint). -/
def tyEq (v : PyVal) (t : FType) : Bool :=
  match v, t with
  | .i _, .int => true
  | .b _, .bool => true
  | .f _, .float => true
  | _, _ => false

/-- Numeric value of a Python scalar, used for Python's cross-type
numeric comparisons (`bool` compares as 0/1; `exc` never reaches a
comparison in the modelled flows and is given a junk value). -/
def toRat : PyVal → ℚ
  | .i n => (n : ℚ)
  | .b v => if v then 1 else 0
  | .f q => q
  | .exc => 0

/-- Python `==` between a current feature value and a requested value:
numeric cross-type equality; an exception object compares unequal to
everything (default identity equality against fresh objects). -/
def pyEq (a b : PyVal) : Bool :=
  match a, b with
  | .exc, _ => false
  | _, .exc => false
  | _, _ => toRat a == toRat b

/-- Python `int(v)` on the values the orchestrator subtracts and
repeats: the integer itself, `bool` as 0/1; junk (0) on the cases the
source never feeds it. -/
def intVal : PyVal → ℤ
  | .i n => n
  | .b v => if v then 1 else 0
  | .f _ => 0
  | .exc => 0

/-- Whether a request value is a `float` (`type(feat_val) == float`). -/
def isFloatV : PyVal → Bool
  | .f _ => true
  | _ => false

/-- Whether a request value is an exception object
(`isinstance(feat_val, Exception)`). -/
def isExcV : PyVal → Bool
  | .exc => true
  | _ => false

/-- Whether a request value is a `bool` (`type(feat_val) == bool`). -/
def isBoolV : PyVal → Bool
  | .b _ => true
  | _ => false

/-! ## Byte strings -/

/-- ASCII byte encoding of a literal string (`str.encode()`); all
literals in the source are ASCII. -/
def enc (s : String) : List Nat := s.data.map Char.toNat

/-- Python `s * k` for a byte/character string and an int: `k`
concatenated copies, the empty string when `k ≤ 0`. -/
def pyRepeat (s : List Nat) (k : ℤ) : List Nat :=
  if k ≤ 0 then [] else (List.replicate k.toNat s).flatten

/-! ## Byte patcher (`_insert_into_mmap` and the mmap primitives) -/

/-- Python mmap.resize when growing: the old content followed by
zero bytes up to the new size. -/
def mmResize (buf : List Nat) (newSize : Nat) : List Nat :=
  buf ++ List.replicate (newSize - buf.length) 0

/-- Python mmap.move with memmove semantics, copying
`buf[src..src+cnt)` onto `buf[dest..dest+cnt)` as if through a scratch
buffer. -/
def mmMove (buf : List Nat) (dest src cnt : Nat) : List Nat :=
  (List.range buf.length).map (fun i =>
    if dest ≤ i ∧ i < dest + cnt then buf.getD (src + (i - dest)) 0
    else buf.getD i 0)

/-- Python mmap.seek then mmap.write: overwrite the data length in bytes at
`pos`. -/
def mmWrite (buf : List Nat) (pos : Nat) (data : List Nat) : List Nat :=
  buf.take pos ++ data ++ buf.drop (pos + data.length)

/-- The method FeatureEdit._insert_into_mmap: remember the trailer length, grow
the mapping by `len data`, move the trailer up by `len data`, write
`data` at the insertion offset and return the buffer together with the
advanced offset (`self.insert_offset += len(data)`). -/
def _insert_into_mmap (buf : List Nat) (off : Nat) (data : List Nat) :
    List Nat × Nat :=
  let fileTrailer := buf.length - off
  let b1 := mmResize buf (buf.length + data.length)
  let b2 := mmMove b1 (off + data.length) off fileTrailer
  let b3 := mmWrite b2 off data
  (b3, off + data.length)

/-- Sequential insertions: fold `_insert_into_mmap` over a list of data
strings, threading buffer and cursor. -/
def insertSeq (st : List Nat × Nat) (ds : List (List Nat)) : List Nat × Nat :=
  ds.foldl (fun st d => _insert_into_mmap st.1 st.2 d) st

/-! ## Feature catalog -/

/-- A range endpoint: the `FileDefined` marker class (the bound is the
document's own current value) or a literal Python value. -/
inductive Bnd : Type where
  | fileDefined
  | lit (v : PyVal)
  deriving DecidableEq

/-- One catalog entry of `_pdfrate_feature_descriptions`: declared type,
lower and upper range endpoint, and edit status (`'y'`/`'n'`/`'m'`). -/
structure FeatDesc : Type where
  ftype : FType
  lo : Bnd
  hi : Bnd
  edit : Char
  deriving DecidableEq

/-- Integer feature with literal bounds. -/
def dII (lo hi : ℤ) (e : Char) : FeatDesc := ⟨.int, .lit (.i lo), .lit (.i hi), e⟩

/-- Integer feature whose lower bound is `FileDefined`. -/
def dIF (hi : ℤ) (e : Char) : FeatDesc := ⟨.int, .fileDefined, .lit (.i hi), e⟩

/-- Integer feature whose upper bound is `FileDefined`. -/
def dIFu (lo : ℤ) (e : Char) : FeatDesc := ⟨.int, .lit (.i lo), .fileDefined, e⟩

/-- Float feature with literal bounds. -/
def dFF (lo hi : ℚ) (e : Char) : FeatDesc := ⟨.float, .lit (.f lo), .lit (.f hi), e⟩

/-- Float feature whose lower bound is `FileDefined`. -/
def dFFd (hi : ℚ) (e : Char) : FeatDesc := ⟨.float, .fileDefined, .lit (.f hi), e⟩

/-- Float feature whose upper bound is `FileDefined`. -/
def dFFu (lo : ℚ) (e : Char) : FeatDesc := ⟨.float, .lit (.f lo), .fileDefined, e⟩

/-- Boolean feature (range `(False, True)`). -/
def dBB (e : Char) : FeatDesc := ⟨.bool, .lit (.b false), .lit (.b true), e⟩

/-- The catalog `_pdfrate_feature_descriptions`, transcribed entry by
entry from the source in its (alphabetical) literal order.  The
`pos_acroform_min` entry's source range is the 3-tuple `(0.0, 1, 0)`, so
its upper bound (`range[1]`) is the integer literal `1`. -/
def _pdfrate_feature_descriptions : List (String × FeatDesc) :=
  [("author_dot", dII 0 24 'y'),
   ("author_lc", dII 0 158 'y'),
   ("author_len", dII 0 288 'm'),
   ("author_mismatch", dIF 45 'm'),
   ("author_num", dII 0 63 'y'),
   ("author_oth", dII 0 79 'y'),
   ("author_uc", dII 0 108 'y'),
   ("box_nonother_types", dIF 2684 'y'),
   ("box_other_only", dBB 'm'),
   ("company_mismatch", dIF 2 'm'),
   ("count_acroform", dIF 7 'y'),
   ("count_acroform_obs", dIF 1 'y'),
   ("count_action", dIF 815 'y'),
   ("count_action_obs", dIF 1 'y'),
   ("count_box_a4", dIF 34 'y'),
   ("count_box_legal", dIF 268 'y'),
   ("count_box_letter", dIF 2684 'y'),
   ("count_box_other", dIF 12916 'y'),
   ("count_box_overlap", dIF 10 'y'),
   ("count_endobj", dIF 19632 'y'),
   ("count_endstream", dIF 6668 'y'),
   ("count_eof", dIF 24 'y'),
   ("count_font", dIF 7333 'y'),
   ("count_font_obs", dIF 5 'y'),
   ("count_image_large", dIF 35 'y'),
   ("count_image_med", dIF 278 'y'),
   ("count_image_small", dIF 311 'y'),
   ("count_image_total", dIF 4542 'n'),
   ("count_image_xlarge", dIF 3 'y'),
   ("count_image_xsmall", dIF 4525 'y'),
   ("count_javascript", dIF 404 'y'),
   ("count_javascript_obs", dIF 2 'y'),
   ("count_js", dIF 404 'y'),
   ("count_js_obs", dIF 2 'y'),
   ("count_obj", dIF 19632 'y'),
   ("count_objstm", dIF 1036 'y'),
   ("count_objstm_obs", dIF 1 'y'),
   ("count_page", dIF 1341 'y'),
   ("count_page_obs", dIF 6 'y'),
   ("count_startxref", dIF 24 'y'),
   ("count_stream", dIF 6668 'y'),
   ("count_stream_diff", dII (-2) 69 'm'),
   ("count_trailer", dIF 46 'y'),
   ("count_xref", dIF 46 'y'),
   ("createdate_dot", dII 0 1 'n'),
   ("createdate_mismatch", dIF 92 'm'),
   ("createdate_ts", dII 0 2058951292 'y'),
   ("createdate_tz", dII (-36000) 46800 'y'),
   ("createdate_version_ratio", dFF (-1) 7326 'm'),
   ("creator_dot", dII 0 5 'y'),
   ("creator_lc", dII 0 46 'y'),
   ("creator_len", dII 0 166 'm'),
   ("creator_mismatch", dIF 45 'm'),
   ("creator_num", dII 0 105 'y'),
   ("creator_oth", dII 0 64 'y'),
   ("creator_uc", dII 0 31 'y'),
   ("delta_ts", dII (-1279940312) 1294753248 'n'),
   ("delta_tz", dII (-57600) 46800 'n'),
   ("image_mismatch", dIF 207 'm'),
   ("image_totalpx", dIF 119549960 'm'),
   ("keywords_dot", dII 0 5 'y'),
   ("keywords_lc", dII 0 291 'y'),
   ("keywords_len", dII 0 446 'm'),
   ("keywords_mismatch", dIF 19 'm'),
   ("keywords_num", dII 0 102 'y'),
   ("keywords_oth", dII 0 185 'y'),
   ("keywords_uc", dII 0 164 'y'),
   ("len_obj_avg", dFF (1/10) 382922 'm'),
   ("len_obj_max", dIF 4161352 'm'),
   ("len_obj_min", dIFu 6 'm'),
   ("len_stream_avg", dFF 0 1531433 'm'),
   ("len_stream_max", dIF 4610074 'm'),
   ("len_stream_min", dIFu 0 'm'),
   ("moddate_dot", dII 0 1 'n'),
   ("moddate_mismatch", dIF 23 'm'),
   ("moddate_ts", dII 0 2058951292 'y'),
   ("moddate_tz", dII (-36000) 46800 'y'),
   ("moddate_version_ratio", dFF (1/10) 7390 'm'),
   ("pdfid0_dot", dII 0 1 'm'),
   ("pdfid0_lc", dII 0 21 'm'),
   ("pdfid0_len", dII 0 46 'm'),
   ("pdfid0_mismatch", dIF 3 'm'),
   ("pdfid0_num", dII 0 44 'm'),
   ("pdfid0_oth", dII 0 1 'm'),
   ("pdfid0_uc", dII 0 21 'm'),
   ("pdfid1_dot", dII 0 1 'm'),
   ("pdfid1_lc", dII 0 21 'm'),
   ("pdfid1_len", dII 0 32 'm'),
   ("pdfid1_mismatch", dIF 23 'm'),
   ("pdfid1_num", dII 0 32 'm'),
   ("pdfid1_oth", dII 0 1 'm'),
   ("pdfid1_uc", dII 0 22 'm'),
   ("pdfid_mismatch", dBB 'm'),
   ("pos_acroform_avg", dFFd 1 'm'),
   ("pos_acroform_max", dFFd 1 'm'),
   ("pos_acroform_min", ⟨.float, .lit (.f 0), .lit (.i 1), 'm'⟩),
   ("pos_box_avg", dFFd 1 'm'),
   ("pos_box_max", dFFd 1 'm'),
   ("pos_box_min", dFF 0 1 'n'),
   ("pos_eof_avg", dFFd 1 'm'),
   ("pos_eof_max", dFFd 1 'n'),
   ("pos_eof_min", dFFu 0 'm'),
   ("pos_image_avg", dFFd 1 'm'),
   ("pos_image_max", dFFd 1 'm'),
   ("pos_image_min", dFF 0 1 'm'),
   ("pos_page_avg", dFFd 1 'm'),
   ("pos_page_max", dFFd 1 'm'),
   ("pos_page_min", dFF 0 1 'm'),
   ("producer_dot", dII 0 1962 'y'),
   ("producer_lc", dII 0 7343 'y'),
   ("producer_len", dII 0 32566 'm'),
   ("producer_mismatch", dIF 9 'm'),
   ("producer_num", dII 0 25302 'y'),
   ("producer_oth", dII 0 9233 'y'),
   ("producer_uc", dII 0 13 'y'),
   ("ratio_imagepx_size", dFF 0 559 'm'),
   ("ratio_size_obj", dFF 24 382971 'm'),
   ("ratio_size_page", dFF 266 11500000000000 'm'),
   ("ratio_size_stream", dFF 316 39680000000 'm'),
   ("size", dIF 10000000 'y'),
   ("subject_dot", dII 0 5 'y'),
   ("subject_lc", dII 0 256 'y'),
   ("subject_len", dII 0 413 'm'),
   ("subject_mismatch", dIF 15 'm'),
   ("subject_num", dII 0 113 'y'),
   ("subject_oth", dII 0 82 'y'),
   ("subject_uc", dII 0 94 'y'),
   ("title_dot", dII 0 11 'y'),
   ("title_lc", dII 0 183 'y'),
   ("title_len", dII 0 698 'm'),
   ("title_mismatch", dIF 517 'm'),
   ("title_num", dII 0 420 'y'),
   ("title_oth", dII 0 160 'y'),
   ("title_uc", dII 0 74 'y'),
   ("version", dII 1 8 'y')]

/-- Catalog lookup, with a junk non-editable descriptor for names not in
the catalog (the source would raise a `KeyError` on such names before
reaching any behaviour modelled here). -/
def descOf (name : String) : FeatDesc :=
  (dlookup name _pdfrate_feature_descriptions).getD ⟨.int, .lit (.i 0), .lit (.i 0), 'n'⟩

/-- The incrementable-feature table `_incrementable_feats`: feature name
to the literal marker string inserted for it, in source order. -/
def _incrementable_feats : List (String × List Nat) :=
  [("count_acroform", enc "/AcroForm"),
   ("count_acroform_obs", enc "/Acro#46orm"),
   ("count_action", enc "/AA"),
   ("count_action_obs", enc "/Open#41ction"),
   ("count_box_a4", enc "[0 0 597 842]"),
   ("count_box_legal", enc "[0 0 611 1007]"),
   ("count_box_letter", enc "[0 0 611 791]"),
   ("count_box_other", enc "[33 34 35 36]"),
   ("count_box_overlap", enc "[0 0 597 791]"),
   ("count_endobj", enc "endobj"),
   ("count_endstream", enc "endstream"),
   ("count_eof", enc "%EOF"),
   ("count_font", enc "/Font"),
   ("count_font_obs", enc "/F#6fnt"),
   ("count_image_large", enc "<< /Height 888/Width 888>>"),
   ("count_image_med", enc "<< /Height 255/Width 255>>"),
   ("count_image_small", enc "<< /Height 65/Width 65>>"),
   ("count_image_xlarge", enc "<< /Height 8888/Width 8888>>"),
   ("count_image_xsmall", enc "<< /Height 1/Width 1>>"),
   ("count_javascript", enc "/JavaScript"),
   ("count_javascript_obs", enc "/Jav#61Script"),
   ("count_js", enc "/JS"),
   ("count_js_obs", enc "/#4AS"),
   ("count_obj", enc "22 0 obj"),
   ("count_objstm", enc "/ObjStm"),
   ("count_objstm_obs", enc "/Ob#6aStm"),
   ("count_page", enc "/Page"),
   ("count_page_obs", enc "/#50age"),
   ("count_startxref", enc "startxref"),
   ("count_stream", enc "stream"),
   ("count_trailer", enc "trailer"),
   ("count_xref", enc "xref")]

/-- The metadata-feature table `_metadata_feats`: field name together
with the bytes before and after the synthesized content in the field's
template string (for example `' /Author({})\n'`), in source order. -/
def _metadata_feats : List (String × List Nat × List Nat) :=
  [("author", (enc " /Author(", enc ")\n")),
   ("creator", (enc " /Creator(", enc ")\n")),
   ("keywords", (enc " /Keywords(", enc ")\n")),
   ("producer", (enc " /Producer(", enc ")\n")),
   ("subject", (enc " /Subject(", enc ")\n")),
   ("title", (enc " /Title(", enc ")\n"))]

/-! ## Validator (`check_feature_change_valid`) -/

/-- Outcome of a validation: acceptance (`True` in the source) or one of
the four rejection exceptions; the bound rejections carry the bound
value rendered into the exception message. -/
inductive VRes : Type where
  | ok
  | typeError
  | readOnly
  | minEx (bound : PyVal)
  | maxEx (bound : PyVal)
  deriving DecidableEq

/-- The upper-bound half of `check_feature_change_valid`: a
`FileDefined` upper bound rejects requests above the current value and
reports the current value; a literal bound rejects requests above the
literal and reports the literal. -/
def checkUpper (desc : FeatDesc) (cur req : PyVal) : VRes :=
  match desc.hi with
  | .fileDefined => if toRat cur < toRat req then .maxEx cur else .ok
  | .lit b => if toRat b < toRat req then .maxEx b else .ok

/-- The method FeatureEdit.check_feature_change_valid, with the catalog entry and
the document's current value (the `get_<name>` reader result) as
arguments: type check, edit-status check, boolean shortcut, then lower
and upper bound checks in order. -/
def check_feature_change_valid (desc : FeatDesc) (cur req : PyVal) : VRes :=
  if tyEq req desc.ftype = false then .typeError
  else if desc.edit ≠ 'y' then .readOnly
  else if isBoolV req then .ok
  else
    match desc.lo with
    | .fileDefined =>
        if toRat req < toRat cur then .minEx cur else checkUpper desc cur req
    | .lit b =>
        if toRat req < toRat b then .minEx b else checkUpper desc cur req

/-! ## Character-level string helpers (Python `str` semantics) -/

/-- Python `s.startswith(p)`: character-wise leading-segment test. -/
def strStartsWith (s p : String) : Bool :=
  decide (s.data.take p.data.length = p.data)

/-- Python `s.endswith(p)`: character-wise suffix test. -/
def strEndsWith (s p : String) : Bool :=
  decide (s.data.drop (s.data.length - p.data.length) = p.data
          ∧ p.data.length ≤ s.data.length)

/-- Python `s[n:]`: drop the first `n` characters. -/
def strDrop (s : String) (n : Nat) : String := String.mk (s.data.drop n)

/-! ## Mutation orchestrator (`modify_file`) -/

/-- Outside collaborators and per-call inputs of one `modify_file`
invocation: the structural property reader (`fv`, backing both
`retrieve_feature_dictionary` and the `get_<name>` getters), the staged
copy of the document (`buf0`), the `startxref` anchor offset, the regex
anchors for the version digit and the two date fields (positions in the
original file plus the old date text), the abstract date renderings
(`time.gmtime` composed with the fixed-width format strings, and the
hour/minute timezone formats with apostrophe and colon separators), and
the caller-chosen output path and re-read feature vector. -/
structure Ctx : Type where
  fv : String → PyVal
  buf0 : List Nat
  startxref : Nat
  versionPos : Option Nat
  moddateLine : Option (Nat × List Nat)
  createdateLine : Option (Nat × List Nat)
  tsRenderMod : ℤ → List Nat
  tsRenderCreate : ℤ → List Nat
  hmApos : ℕ → List Nat
  hmColon : ℕ → List Nat
  newPath : List Nat
  reread : String → PyVal

/-- A value stored in the `report` dictionary before finalization:
either an applied value or a stored rejection exception. -/
inductive RVal : Type where
  | v (x : PyVal)
  | e (r : VRes)
  deriving DecidableEq

/-- Mutable state of one `modify_file` call: the memory-mapped buffer,
the insertion offset, and the `to_change` and `report` dictionaries. -/
structure MSt : Type where
  buf : List Nat
  off : Nat
  toChange : List (String × PyVal)
  report : List (String × RVal)
  deriving DecidableEq

/-- Calling _insert_into_mmap as a state update: thread the
buffer and the advanced `insert_offset`. -/
def mfInsert (st : MSt) (data : List Nat) : MSt :=
  { st with buf := (_insert_into_mmap st.buf st.off data).1,
            off := (_insert_into_mmap st.buf st.off data).2 }

/-- One iteration of the Step-1 loop over the sorted request items: skip
features that already hold the requested value (or are exception
objects), skip float requests within `1e-6` of the current value, and
otherwise run the validator, routing acceptance into `to_change` and
rejection into `report`. -/
def validateOne (fv : String → PyVal) (st : MSt) (kv : String × PyVal) : MSt :=
  if pyEq (fv kv.1) kv.2 = false ∧ isExcV kv.2 = false then
    if isFloatV kv.2 = true ∧ |toRat (fv kv.1) - toRat kv.2| < 1/1000000 then st
    else
      match check_feature_change_valid (descOf kv.1) (fv kv.1) kv.2 with
      | .ok => { st with toChange := dictSet kv.1 kv.2 st.toChange }
      | r => { st with report := dictSet kv.1 (.e r) st.report }
  else st

/-- The state entering Step 1: the staged copy of the document with the
insertion offset reset to the `startxref` position, and empty
dictionaries. -/
def initSt (ctx : Ctx) : MSt :=
  { buf := ctx.buf0, off := ctx.startxref, toChange := [], report := [] }

/-- Step 1 (diff and validate): fold `validateOne` over the request
items. -/
def step1 (ctx : Ctx) (req : List (String × PyVal)) : MSt :=
  req.foldl (validateOne ctx.fv) (initSt ctx)

/-- Step 2 (version digit): if `version` is to be changed and the
`%PDF-1.(d)` regex matches, write `int(to_change['version'])` — the raw
integer value, not a digit character — as the byte at the match
position, record success and drop the feature from `to_change`. -/
def versionStep (ctx : Ctx) (st : MSt) : MSt :=
  match dlookup "version" st.toChange with
  | some v =>
      match ctx.versionPos with
      | some p =>
          { st with buf := st.buf.set p (intVal v).toNat,
                    report := dictSet "version" (.v v) st.report,
                    toChange := dictErase "version" st.toChange }
      | none => st
  | none => st

/-- The marker line (a space, the marker bytes, a newline) inserted once per unit of
increment. -/
def incChunk (marker : List Nat) : List Nat := enc " " ++ marker ++ enc "\n"

/-- Step-3 body for one incrementable feature: if it is to be changed,
insert `increase` copies of its marker line in one batch (Python string
repetition, empty for a non-positive count), record success and drop it
from `to_change`. -/
def incOne (ctx : Ctx) (st : MSt) (p : String × List Nat) : MSt :=
  match dlookup p.1 st.toChange with
  | some newVal =>
      let st' := mfInsert st
        (pyRepeat (incChunk p.2) (intVal newVal - intVal (ctx.fv p.1)))
      { st' with report := dictSet p.1 (.v newVal) st'.report,
                 toChange := dictErase p.1 st'.toChange }
  | none => st

/-- Step 3 (incrementable counters): fold over `_incrementable_feats`
in table order. -/
def incrementStep (ctx : Ctx) (st : MSt) : MSt :=
  _incrementable_feats.foldl (incOne ctx) st

/-- The filter of the Step-4 comprehension: keys starting with the field
name and not ending in `mismatch` or `len`. -/
def metaMatch (pfx : String) (f : String) : Bool :=
  strStartsWith f pfx && !(strEndsWith f "mismatch") && !(strEndsWith f "len")

/-- The synthesized characters for one metadata sub-feature: the class's
representative character repeated `count` times (`'a'`/`'Z'`/`'3'`/
`'-'`/`'.'` for `lc`/`uc`/`num`/`oth`/`dot`), nothing for an unknown
suffix. -/
def metaClassChunk (suf : String) (c : ℤ) : List Nat :=
  if suf = "lc" then pyRepeat [97] c
  else if suf = "uc" then pyRepeat [90] c
  else if suf = "num" then pyRepeat [51] c
  else if suf = "oth" then pyRepeat [45] c
  else if suf = "dot" then pyRepeat [46] c
  else []

/-- One iteration of the Step-4 inner loop: extend the addendum with the
sub-feature's synthesized characters, record success and drop the
sub-feature from `to_change` (the `.getD` default models the lookup of a
key the source would have found present). -/
def metaLoopBody (pfx : String) (acc : List Nat × MSt) (suf : String) :
    List Nat × MSt :=
  let feat := pfx ++ "_" ++ suf
  let v := (dlookup feat acc.2.toChange).getD (.i 0)
  (acc.1 ++ metaClassChunk suf (intVal v),
   { acc.2 with report := dictSet feat (.v v) acc.2.report,
                toChange := dictErase feat acc.2.toChange })

/-- The sub-feature suffixes one metadata field gathers from
`to_change` (the Step-4 comprehension). -/
def fieldSubs (pfx : String) (tc : List (String × PyVal)) : List String :=
  (tc.filter (fun kv => metaMatch pfx kv.1)).map
    (fun kv => strDrop kv.1 (pfx.length + 1))

/-- The tail of the Step-4 field body: insert the addendum wrapped in
the field's template — once, and only when the addendum is nonempty. -/
def metaFieldFinish (fld : String × List Nat × List Nat) (r : List Nat × MSt) : MSt :=
  if r.1 ≠ [] then mfInsert r.2 (fld.2.1 ++ r.1 ++ fld.2.2) else r.2

/-- Step-4 body for one metadata field: gather the matching sub-feature
suffixes from `to_change` in dictionary order, run the inner loop, then
perform the single guarded insertion. -/
def metaFieldStep (st : MSt) (fld : String × List Nat × List Nat) : MSt :=
  metaFieldFinish fld ((fieldSubs fld.1 st.toChange).foldl (metaLoopBody fld.1) ([], st))

/-- Step 4 (metadata composition): fold over `_metadata_feats` in table
order. -/
def metadataStep (st : MSt) : MSt :=
  _metadata_feats.foldl metaFieldStep st

/-- The sign character of a timezone rendering (`'+'` if positive else
`'-'`). -/
def signEnc (n : ℤ) : List Nat := if 0 < n then enc "+" else enc "-"

/-- The timestamp part of the modification date: the requested epoch
when `moddate_ts` is to be changed (recording success and consuming it),
otherwise the document's current `get_moddate_ts()` epoch. -/
def moddateTsPart (ctx : Ctx) (st : MSt) : List Nat × MSt :=
  match dlookup "moddate_ts" st.toChange with
  | some v =>
      (ctx.tsRenderMod (intVal v),
       { st with report := dictSet "moddate_ts" (.v v) st.report,
                 toChange := dictErase "moddate_ts" st.toChange })
  | none => (ctx.tsRenderMod (intVal (ctx.fv "moddate_ts")), st)

/-- The timezone part of the modification date: `'Z'` for a zero offset,
otherwise sign plus the hour/minute rendering; falls back to the
document's current `get_moddate_tz()` when `moddate_tz` is not to be
changed. -/
def moddateTzPart (ctx : Ctx) (st : MSt) : List Nat × MSt :=
  match dlookup "moddate_tz" st.toChange with
  | some v =>
      let n := intVal v
      ((if n = 0 then enc "Z" else signEnc n ++ ctx.hmApos n.natAbs),
       { st with report := dictSet "moddate_tz" (.v v) st.report,
                 toChange := dictErase "moddate_tz" st.toChange })
  | none =>
      let old := intVal (ctx.fv "moddate_tz")
      ((if old ≠ 0 then signEnc old ++ ctx.hmApos old.natAbs else enc "Z"), st)

/-- The tail of Step 5a: with the composed timestamp and timezone
strings in hand, overwrite an existing `/ModDate(...)` of identical
rendered length in place, otherwise insert a fresh `/ModDate(D:...)`
field.  Caveat: the in-place branch here performs the overwrite the
source *intends*; the py3 source actually passes a `str` to
`mmap.write` there, raising `TypeError` — see `moddateFinishE` below
for the fault-faithful variant. -/
def moddateFinish (ctx : Ctx) (t z : List Nat × MSt) : MSt :=
  match ctx.moddateLine with
  | some line =>
      if (enc "D:" ++ t.1 ++ z.1).length = line.2.length then
        { z.2 with buf := mmWrite z.2.buf line.1 (enc "D:" ++ t.1 ++ z.1) }
      else mfInsert z.2 (enc "/ModDate(D:" ++ t.1 ++ z.1 ++ enc ")")
  | none => mfInsert z.2 (enc "/ModDate(D:" ++ t.1 ++ z.1 ++ enc ")")

/-- Step 5a (modification date): when `moddate_ts` or `moddate_tz` is to
be changed, compose the date string and write it. -/
def moddateStep (ctx : Ctx) (st : MSt) : MSt :=
  if (dlookup "moddate_ts" st.toChange).isSome
      ∨ (dlookup "moddate_tz" st.toChange).isSome then
    moddateFinish ctx (moddateTsPart ctx st)
      (moddateTzPart ctx (moddateTsPart ctx st).2)
  else st

/-- The timestamp part of the creation date.  The unchanged branch reads
`self.get_moddate_ts()` — the modification date's epoch — exactly as the
source does (a copy-paste slip from the moddate handler), not the
creation date's own epoch. -/
def createdateTsPart (ctx : Ctx) (st : MSt) : List Nat × MSt :=
  match dlookup "createdate_ts" st.toChange with
  | some v =>
      (ctx.tsRenderCreate (intVal v),
       { st with report := dictSet "createdate_ts" (.v v) st.report,
                 toChange := dictErase "createdate_ts" st.toChange })
  | none => (ctx.tsRenderCreate (intVal (ctx.fv "moddate_ts")), st)

/-- The timezone part of the creation date: colon-separated rendering
for a requested nonzero offset; the unchanged branch falls back to the
current `get_createdate_tz()` with the apostrophe-separated rendering,
as in the source. -/
def createdateTzPart (ctx : Ctx) (st : MSt) : List Nat × MSt :=
  match dlookup "createdate_tz" st.toChange with
  | some v =>
      let n := intVal v
      ((if n = 0 then enc "Z" else signEnc n ++ ctx.hmColon n.natAbs),
       { st with report := dictSet "createdate_tz" (.v v) st.report,
                 toChange := dictErase "createdate_tz" st.toChange })
  | none =>
      let old := intVal (ctx.fv "createdate_tz")
      ((if old ≠ 0 then signEnc old ++ ctx.hmApos old.natAbs else enc "Z"), st)

/-- The tail of Step 5b: overwrite an existing creation date of
identical rendered length in place, otherwise insert a fresh
`<xap:CreateDate>...</xap:CreateDate>` field.  Caveat: as with
`moddateFinish`, the in-place branch performs the overwrite the source
intends, while the py3 source passes a `str` to `mmap.write` there and
raises `TypeError` — see `createdateFinishE` below. -/
def createdateFinish (ctx : Ctx) (t z : List Nat × MSt) : MSt :=
  match ctx.createdateLine with
  | some line =>
      if (t.1 ++ z.1).length = line.2.length then
        { z.2 with buf := mmWrite z.2.buf line.1 (t.1 ++ z.1) }
      else
        mfInsert z.2 (enc "<xap:CreateDate>" ++ t.1 ++ z.1
          ++ enc "</xap:CreateDate>")
  | none =>
      mfInsert z.2 (enc "<xap:CreateDate>" ++ t.1 ++ z.1
        ++ enc "</xap:CreateDate>")

/-- Step 5b (creation date): when `createdate_ts` or `createdate_tz` is
to be changed, compose the date string and write it. -/
def createdateStep (ctx : Ctx) (st : MSt) : MSt :=
  if (dlookup "createdate_ts" st.toChange).isSome
      ∨ (dlookup "createdate_tz" st.toChange).isSome then
    createdateFinish ctx (createdateTsPart ctx st)
      (createdateTzPart ctx (createdateTsPart ctx st).2)
  else st

/-- Step 6 (size padding, last): insert
`to_change['size'] - mm.size()` space bytes when that count is positive,
recording success; otherwise do nothing (the feature stays in
`to_change`). -/
def sizeStep (st : MSt) : MSt :=
  match dlookup "size" st.toChange with
  | some v =>
      if 0 < intVal v - (st.buf.length : ℤ) then
        let st' := mfInsert st (pyRepeat (enc " ") (intVal v - (st.buf.length : ℤ)))
        { st' with report := dictSet "size" (.v v) st'.report,
                   toChange := dictErase "size" st'.toChange }
      else st
  | none => st

/-- The per-entry wrapping of the final report: stored exceptions become
`success = False`, applied values `success = True`. -/
def wrapR : RVal → Bool × RVal
  | .e r => (false, .e r)
  | .v x => (true, .v x)

/-- Step 7's report assembly: wrap every `report` entry, then add every
feature still in `to_change` as an unapplied (`success = False`) entry
carrying its requested value. -/
def finalizeReport (st : MSt) : List (String × (Bool × RVal)) :=
  st.toChange.foldl (fun rep kv => dictSet kv.1 (false, .v kv.2) rep)
    (st.report.map (fun kv => (kv.1, wrapR kv.2)))

/-- The dictionary returned by `modify_file`: path of the new document,
its final bytes, the report, and the re-read feature vector. -/
structure MFResult : Type where
  path : List Nat
  buf : List Nat
  report : List (String × (Bool × RVal))
  feats : String → PyVal

/-- The state after all six category steps, in the source's fixed
order. -/
def preFinal (ctx : Ctx) (req : List (String × PyVal)) : MSt :=
  sizeStep (createdateStep ctx (moddateStep ctx (metadataStep
    (incrementStep ctx (versionStep ctx (step1 ctx req))))))

/-- The method FeatureEdit.modify_file after staging succeeds, on the
normalized (sorted, per-type decoded) request items: run the pipeline
and assemble the result dictionary. -/
def modify_file (ctx : Ctx) (req : List (String × PyVal)) : MFResult :=
  { path := ctx.newPath
    buf := (preFinal ctx req).buf
    report := finalizeReport (preFinal ctx req)
    feats := ctx.reread }

/-! ## The in-place date overwrite with the py3 write fault made explicit

The two in-place date branches execute `mm.seek(...)` followed by
`mm.write(new_moddate)` / `mm.write(new_createdate)` where the argument
is a `str`: in Python 3, `mmap.write` requires a bytes-like object and
raises `TypeError`, aborting `modify_file` with no return value (every
other write goes through `_insert_into_mmap`, which calls `.encode()`
first).  The variants below return `none` exactly on that branch. -/

/-- The tail of Step 5a with the fault explicit: reaching the in-place
branch (an anchored old date of identical rendered length) raises
`TypeError`; the insert branch is unaffected. -/
def moddateFinishE (ctx : Ctx) (t z : List Nat × MSt) : Option MSt :=
  match ctx.moddateLine with
  | some line =>
      if (enc "D:" ++ t.1 ++ z.1).length = line.2.length then none
      else some (mfInsert z.2 (enc "/ModDate(D:" ++ t.1 ++ z.1 ++ enc ")"))
  | none => some (mfInsert z.2 (enc "/ModDate(D:" ++ t.1 ++ z.1 ++ enc ")"))

/-- Step 5a with the fault explicit. -/
def moddateStepE (ctx : Ctx) (st : MSt) : Option MSt :=
  if (dlookup "moddate_ts" st.toChange).isSome
      ∨ (dlookup "moddate_tz" st.toChange).isSome then
    moddateFinishE ctx (moddateTsPart ctx st)
      (moddateTzPart ctx (moddateTsPart ctx st).2)
  else some st

/-- The tail of Step 5b with the fault explicit. -/
def createdateFinishE (ctx : Ctx) (t z : List Nat × MSt) : Option MSt :=
  match ctx.createdateLine with
  | some line =>
      if (t.1 ++ z.1).length = line.2.length then none
      else some (mfInsert z.2 (enc "<xap:CreateDate>" ++ t.1 ++ z.1
        ++ enc "</xap:CreateDate>"))
  | none => some (mfInsert z.2 (enc "<xap:CreateDate>" ++ t.1 ++ z.1
      ++ enc "</xap:CreateDate>"))

/-- Step 5b with the fault explicit. -/
def createdateStepE (ctx : Ctx) (st : MSt) : Option MSt :=
  if (dlookup "createdate_ts" st.toChange).isSome
      ∨ (dlookup "createdate_tz" st.toChange).isSome then
    createdateFinishE ctx (createdateTsPart ctx st)
      (createdateTzPart ctx (createdateTsPart ctx st).2)
  else some st

/-- The pipeline with the fault explicit: `none` when either date step
raises the uncaught `TypeError`. -/
def preFinalE (ctx : Ctx) (req : List (String × PyVal)) : Option MSt :=
  (moddateStepE ctx (metadataStep (incrementStep ctx (versionStep ctx
    (step1 ctx req))))).bind
    (fun st => (createdateStepE ctx st).map sizeStep)

/-- The method FeatureEdit.modify_file with the fault explicit: `none`
models the uncaught exception propagating out of the call, producing no
result dictionary and no report. -/
def modify_fileE (ctx : Ctx) (req : List (String × PyVal)) : Option MFResult :=
  (preFinalE ctx req).map (fun st =>
    { path := ctx.newPath, buf := st.buf, report := finalizeReport st,
      feats := ctx.reread })

/-! ## Derived notions used in the claim statements -/

/-- The lower-bound check of the validator passes (evaluation reaches
the upper-bound check). -/
def loPass (desc : FeatDesc) (cur req : PyVal) : Prop :=
  (desc.lo = .fileDefined → ¬ toRat req < toRat cur) ∧
  (∀ b, desc.lo = .lit b → ¬ toRat req < toRat b)

/-- A request entry satisfies the Step-1 acceptance conditions recorded
for every `to_change` member: it differs from the current value and the
validator accepted it. -/
def acceptedEntry (fv : String → PyVal) (kv : String × PyVal) : Prop :=
  pyEq (fv kv.1) kv.2 = false ∧
  check_feature_change_valid (descOf kv.1) (fv kv.1) kv.2 = .ok

/-- Every `to_change` entry of a state satisfies the Step-1 acceptance
conditions. -/
def tcAccepted (fv : String → PyVal) (st : MSt) : Prop :=
  ∀ kv ∈ st.toChange, acceptedEntry fv kv

/-- A request entry is diffed (not equal to the current value, not an
exception, not a near-equal float) and rejected by the validator with
result `r`. -/
def rejectedAs (ctx : Ctx) (f : String) (v : PyVal) (r : VRes) : Prop :=
  pyEq (ctx.fv f) v = false ∧ isExcV v = false ∧
  ¬ (isFloatV v = true ∧ |toRat (ctx.fv f) - toRat v| < 1/1000000) ∧
  check_feature_change_valid (descOf f) (ctx.fv f) v = r ∧ r ≠ .ok

/-- How one pipeline step (Steps 2–6) may transform the dictionaries:
`to_change` only loses entries, `report` only gains keys taken from
`to_change`, report entries of keys outside `to_change` are untouched,
key uniqueness of `to_change` is preserved, and a key held by both
dictionaries afterwards was held by both before. -/
def stepOK (st st' : MSt) : Prop :=
  (∀ kv, kv ∈ st'.toChange → kv ∈ st.toChange) ∧
  (∀ k, k ∈ dictKeys st'.report → k ∈ dictKeys st.report ∨ k ∈ dictKeys st.toChange) ∧
  (∀ k, k ∉ dictKeys st.toChange → dlookup k st'.report = dlookup k st.report) ∧
  ((dictKeys st.toChange).Nodup → (dictKeys st'.toChange).Nodup) ∧
  (∀ k, k ∈ dictKeys st'.report → k ∈ dictKeys st'.toChange →
      k ∈ dictKeys st.report ∧ k ∈ dictKeys st.toChange)

/-- The addendum a metadata field composes, read against a fixed
`to_change` dictionary: the concatenation of the synthesized class
strings in suffix order. -/
def fieldAddendum (pfx : String) (subs : List String)
    (tc : List (String × PyVal)) : List Nat :=
  subs.foldl
    (fun a suf => a ++ metaClassChunk suf
      (intVal ((dlookup (pfx ++ "_" ++ suf) tc).getD (.i 0)))) []

/-- The representative byte of a metadata character class. -/
def repByte (suf : String) : Nat :=
  if suf = "lc" then 97
  else if suf = "uc" then 90
  else if suf = "num" then 51
  else if suf = "oth" then 45
  else if suf = "dot" then 46
  else 0

/-- The five metadata character-class suffixes. -/
def metaSufs : List String := ["lc", "uc", "num", "oth", "dot"]

/-! ## Concrete inputs for witnesses and counterexamples -/

/-- A minimal context: all-zero feature vector, empty buffer, no
anchors. -/
def ctxW : Ctx :=
  { fv := fun _ => .i 0, buf0 := [], startxref := 0,
    versionPos := none, moddateLine := none, createdateLine := none,
    tsRenderMod := fun _ => [], tsRenderCreate := fun _ => [],
    hmApos := fun _ => [], hmColon := fun _ => [],
    newPath := [], reread := fun _ => .i 0 }

/-- Context for the version counterexample: a document reading
`%PDF-1.3` whose version digit the regex finds at byte 7. -/
def c4ctx : Ctx :=
  { ctxW with fv := fun _ => .i 3, buf0 := enc "%PDF-1.3", versionPos := some 7 }

/-- State entering the version step with `version = 5` accepted. -/
def c4st : MSt :=
  { buf := enc "%PDF-1.3", off := 0,
    toChange := [("version", .i 5)], report := [] }

/-- Context for the creation-date counterexample: the document's
creation-date epoch is 100 and its modification-date epoch is 200, and
the abstract renderings are injective enough to tell the two apart. -/
def c5ctx : Ctx :=
  { ctxW with
    fv := fun n => if n = "createdate_ts" then .i 100
      else if n = "moddate_ts" then .i 200 else .i 0,
    tsRenderCreate := fun z => [z.toNat % 1000],
    hmColon := fun _ => [77] }

/-- State entering the creation-date step with `createdate_tz = 3600`
accepted and `createdate_ts` not requested. -/
def c5st : MSt :=
  { buf := [], off := 0, toChange := [("createdate_tz", .i 3600)], report := [] }

/-- State entering the metadata step with `author_lc = 0` accepted: a
request the validator accepts whenever the document's current
`author_lc` is nonzero. -/
def c6st : MSt :=
  { buf := [], off := 0, toChange := [("author_lc", .i 0)], report := [] }

/-- State entering the metadata step with `author_lc = 3` and
`author_uc = 2` accepted and no other author sub-feature requested. -/
def c6wst : MSt :=
  { buf := [], off := 0,
    toChange := [("author_lc", PyVal.i 3), ("author_uc", PyVal.i 2)],
    report := [] }

/-- Context for the incrementable-counter witness: the document
currently has one page marker. -/
def c3ctx : Ctx :=
  { ctxW with fv := fun n => if n = "count_page" then .i 1 else .i 0 }

/-- State entering the increment step with `count_page = 3` accepted. -/
def c3st : MSt :=
  { buf := [], off := 0, toChange := [("count_page", PyVal.i 3)], report := [] }

/-- State entering the size step with `size = 5` accepted over a
two-byte buffer. -/
def c7st : MSt :=
  { buf := [65, 66], off := 0, toChange := [("size", .i 5)], report := [] }

/-- State entering the size step with `size = 1` accepted over a
two-byte buffer (a shrink request). -/
def c7st' : MSt :=
  { buf := [65, 66], off := 0, toChange := [("size", .i 1)], report := [] }

/-- Context for the date-write fault: the document has an existing
`/ModDate(D:YZ)` whose date text the regex anchors at offset 0, the
abstract timestamp rendering is one byte wide (so the recomposed date
has the same length as the old one and the in-place branch is taken),
and all current feature values are zero. -/
def c9ctx : Ctx :=
  { ctxW with tsRenderMod := fun _ => [88],
              moddateLine := some (0, enc "D:YZ") }

/-- A one-entry request the validator accepts: `moddate_ts = 5` against
a current value of 0, within the literal catalog bounds. -/
def c9req : List (String × PyVal) := [("moddate_ts", .i 5)]

/-! ## Lemmas about the dictionary model -/

theorem dlookup_cons {β : Type} (k : String) (kv : String × β) (t : List (String × β)) :
    dlookup k (kv :: t) = if kv.1 = k then some kv.2 else dlookup k t := rfl

theorem dictErase_cons {β : Type} (k : String) (kv : String × β) (t : List (String × β)) :
    dictErase k (kv :: t) =
      if kv.1 = k then dictErase k t else kv :: dictErase k t := by
  by_cases h : kv.1 = k <;> simp [dictErase, List.filter_cons, h]

theorem dlookup_eq_none_iff {β : Type} (k : String) (d : List (String × β)) :
    dlookup k d = none ↔ k ∉ dictKeys d := by
  induction d with
  | nil => simp [dlookup, dictKeys]
  | cons kv t ih =>
    by_cases h : kv.1 = k
    · simp [dlookup_cons, dictKeys, h]
    · simp [dlookup_cons, dictKeys, h, ih, dictKeys, Ne.symm h]

theorem mem_dictKeys_iff_isSome {β : Type} (k : String) (d : List (String × β)) :
    k ∈ dictKeys d ↔ (dlookup k d).isSome := by
  rcases h : dlookup k d with _ | v
  · simp [(dlookup_eq_none_iff k d).mp h]
  · simp only [Option.isSome_some, iff_true]
    by_contra hk
    rw [(dlookup_eq_none_iff k d).mpr hk] at h
    exact Option.noConfusion h

theorem dlookup_some_mem {β : Type} {k : String} {v : β} {d : List (String × β)}
    (h : dlookup k d = some v) : (k, v) ∈ d := by
  induction d with
  | nil => exact Option.noConfusion h
  | cons kv t ih =>
    by_cases hk : kv.1 = k
    · rw [dlookup_cons, if_pos hk] at h
      obtain rfl := Option.some_injective _ h
      exact List.mem_cons.mpr (Or.inl (by rw [← hk]))
    · rw [dlookup_cons, if_neg hk] at h
      exact List.mem_cons_of_mem _ (ih h)

theorem mem_dlookup {β : Type} {k : String} {v : β} {d : List (String × β)}
    (hd : (dictKeys d).Nodup) (h : (k, v) ∈ d) : dlookup k d = some v := by
  induction d with
  | nil => exact absurd h (List.not_mem_nil _)
  | cons kv t ih =>
    simp only [dictKeys, List.map_cons, List.nodup_cons] at hd
    rcases List.mem_cons.mp h with h1 | h1
    · rw [← h1]
      simp [dlookup_cons]
    · have hk : kv.1 ≠ k := by
        intro hkk
        exact hd.1 (hkk ▸ (List.mem_map.mpr ⟨(k, v), h1, rfl⟩))
      rw [dlookup_cons, if_neg hk]
      exact ih hd.2 h1

theorem dlookup_append_of_ne {β : Type} {k' k : String} (v : β) (d : List (String × β))
    (h : k' ≠ k) : dlookup k' (d ++ [(k, v)]) = dlookup k' d := by
  induction d with
  | nil => simp [dlookup, Ne.symm h]
  | cons kv t ih =>
    by_cases hk : kv.1 = k'
    · simp [dlookup_cons, hk]
    · simpa [dlookup_cons, hk] using ih

theorem dlookup_mapSet_self {β : Type} (k : String) (v : β) (d : List (String × β)) :
    dlookup k (d.map (fun kv => if kv.1 = k then (k, v) else kv)) =
      if k ∈ dictKeys d then some v else none := by
  induction d with
  | nil => simp [dlookup, dictKeys]
  | cons kv t ih =>
    by_cases hk : kv.1 = k
    · simp [dlookup_cons, hk, dictKeys]
    · simp only [List.map_cons, if_neg hk, dlookup_cons, ih, dictKeys,
        List.map_cons, List.mem_cons]
      have hne : ¬ k = kv.1 := fun h => hk h.symm
      rw [if_congr (or_iff_right hne) rfl rfl]

theorem dlookup_mapSet_ne {β : Type} {k' k : String} (v : β) (d : List (String × β))
    (h : k' ≠ k) :
    dlookup k' (d.map (fun kv => if kv.1 = k then (k, v) else kv)) = dlookup k' d := by
  induction d with
  | nil => simp [dlookup]
  | cons kv t ih =>
    by_cases hk : kv.1 = k
    · simp only [List.map_cons, if_pos hk, dlookup_cons, ih]
      rw [if_neg (Ne.symm h), if_neg (by rw [hk]; exact Ne.symm h : ¬ kv.1 = k')]
    · simp only [List.map_cons, if_neg hk, dlookup_cons, ih]

theorem dlookup_dictSet_self {β : Type} (k : String) (v : β) (d : List (String × β)) :
    dlookup k (dictSet k v d) = some v := by
  unfold dictSet
  split
  · rename_i hmem
    rw [dlookup_mapSet_self, if_pos hmem]
  · rename_i hmem
    induction d with
    | nil => simp [dlookup]
    | cons kv t ih =>
      have h : kv.1 ≠ k := fun hkk => hmem (by simp [dictKeys, hkk])
      have ht : k ∉ dictKeys t := fun hk => hmem (by simp [dictKeys] at hk ⊢; tauto)
      simpa [dlookup_cons, h] using ih ht

theorem dlookup_dictSet_ne {β : Type} {k' k : String} (v : β) (d : List (String × β))
    (h : k' ≠ k) : dlookup k' (dictSet k v d) = dlookup k' d := by
  unfold dictSet
  split
  · exact dlookup_mapSet_ne v d h
  · exact dlookup_append_of_ne v d h

theorem dlookup_dictErase_self {β : Type} (k : String) (d : List (String × β)) :
    dlookup k (dictErase k d) = none := by
  induction d with
  | nil => simp [dictErase, dlookup]
  | cons kv t ih =>
    rw [dictErase_cons]
    by_cases h : kv.1 = k
    · simpa [h] using ih
    · simpa [h, dlookup_cons] using ih

theorem dlookup_dictErase_ne {β : Type} {k' k : String} (d : List (String × β))
    (h : k' ≠ k) : dlookup k' (dictErase k d) = dlookup k' d := by
  induction d with
  | nil => simp [dictErase, dlookup]
  | cons kv t ih =>
    rw [dictErase_cons]
    by_cases hk : kv.1 = k
    · rw [if_pos hk, dlookup_cons, if_neg (by rw [hk]; exact Ne.symm h), ih]
    · rw [if_neg hk, dlookup_cons, dlookup_cons, ih]

theorem mem_of_mem_dictErase {β : Type} {kv : String × β} {k : String}
    {d : List (String × β)} (h : kv ∈ dictErase k d) : kv ∈ d :=
  List.mem_of_mem_filter h

theorem not_mem_dictKeys_dictErase {β : Type} (k : String) (d : List (String × β)) :
    k ∉ dictKeys (dictErase k d) := by
  rw [← dlookup_eq_none_iff]
  exact dlookup_dictErase_self k d

theorem mem_dictKeys_dictErase {β : Type} {k' k : String} {d : List (String × β)}
    (h : k' ∈ dictKeys (dictErase k d)) : k' ∈ dictKeys d := by
  simp only [dictKeys, List.mem_map] at h ⊢
  obtain ⟨kv, hkv, rfl⟩ := h
  exact ⟨kv, mem_of_mem_dictErase hkv, rfl⟩

theorem nodup_dictKeys_dictErase {β : Type} (k : String) {d : List (String × β)}
    (h : (dictKeys d).Nodup) : (dictKeys (dictErase k d)).Nodup := by
  induction d with
  | nil => simp [dictErase, dictKeys]
  | cons kv t ih =>
    simp only [dictKeys, List.map_cons, List.nodup_cons] at h
    rw [dictErase_cons]
    by_cases hk : kv.1 = k
    · simpa [hk] using ih h.2
    · rw [if_neg hk]
      simp only [dictKeys, List.map_cons, List.nodup_cons]
      exact ⟨fun hmem => h.1 (mem_dictKeys_dictErase hmem), ih h.2⟩

theorem dictKeys_dictSet {β : Type} (k : String) (v : β) (d : List (String × β)) :
    dictKeys (dictSet k v d) =
      if k ∈ dictKeys d then dictKeys d else dictKeys d ++ [k] := by
  unfold dictSet
  split
  · simp only [dictKeys, List.map_map]
    congr 1
    funext kv
    by_cases h : kv.1 = k <;> simp [h, Function.comp]
  · simp [dictKeys]

theorem nodup_dictKeys_dictSet {β : Type} (k : String) (v : β) {d : List (String × β)}
    (h : (dictKeys d).Nodup) : (dictKeys (dictSet k v d)).Nodup := by
  rw [dictKeys_dictSet]
  split
  · exact h
  · rename_i hmem
    simpa [List.nodup_append] using ⟨h, fun hk => hmem hk⟩

theorem mem_dictKeys_dictSet {β : Type} {k' k : String} {v : β} {d : List (String × β)}
    (h : k' ∈ dictKeys (dictSet k v d)) : k' ∈ dictKeys d ∨ k' = k := by
  rw [dictKeys_dictSet] at h
  revert h
  split
  · exact fun h => Or.inl h
  · intro h
    rcases List.mem_append.mp h with h | h
    · exact Or.inl h
    · simpa using Or.inr (List.mem_singleton.mp h)

theorem mem_dictSet_elim {β : Type} {kv : String × β} {k : String} {v : β}
    {d : List (String × β)} (h : kv ∈ dictSet k v d) : kv = (k, v) ∨ kv ∈ d := by
  unfold dictSet at h
  revert h
  split
  · intro h
    obtain ⟨kv', hkv', hcast⟩ := List.mem_map.mp h
    by_cases hk : kv'.1 = k
    · rw [if_pos hk] at hcast
      exact Or.inl hcast.symm
    · rw [if_neg hk] at hcast
      exact Or.inr (hcast ▸ hkv')
  · intro h
    rcases List.mem_append.mp h with h | h
    · exact Or.inr h
    · exact Or.inl (List.mem_singleton.mp h)

theorem dlookup_map_snd {β γ : Type} (k : String) (g : β → γ) (d : List (String × β)) :
    dlookup k (d.map (fun kv => (kv.1, g kv.2))) = (dlookup k d).map g := by
  induction d with
  | nil => simp [dlookup]
  | cons kv t ih =>
    by_cases h : kv.1 = k
    · simp [dlookup_cons, h]
    · simpa [dlookup_cons, h] using ih

/-! ## Lemmas about the byte patcher -/

theorem insert_into_mmap_eq (buf data : List Nat) (off : Nat) (h : off ≤ buf.length) :
    _insert_into_mmap buf off data =
      (buf.take off ++ data ++ buf.drop off, off + data.length) := by
  set n := buf.length with hn
  set d := data.length with hd
  have hres : mmResize buf (n + d) = buf ++ List.replicate d 0 := by
    simp [mmResize]
  set b1 := buf ++ List.replicate d 0 with hb1
  have hb1len : b1.length = n + d := by simp [hb1, hn, hd]
  set b2 := mmMove b1 (off + d) off (n - off) with hb2
  have hb2len : b2.length = n + d := by
    rw [hb2]
    unfold mmMove
    simp [hb1len]
  have hb1some : ∀ i, i < n → some (b1.getD i 0) = buf[i]? := by
    intro i hi
    rw [List.getD_eq_getElem b1 0 (by omega : i < b1.length),
      List.getElem?_eq_getElem (by omega : i < buf.length)]
    exact congrArg some (List.getElem_append_left (by omega))
  have hb2get : ∀ i, b2[i]? =
      if i < n + d then
        some (if off + d ≤ i ∧ i < off + d + (n - off) then
          b1.getD (off + (i - (off + d))) 0 else b1.getD i 0)
      else none := by
    intro i
    rw [hb2]
    unfold mmMove
    rw [List.getElem?_map, hb1len]
    by_cases hi : i < n + d
    · rw [List.getElem?_range hi, if_pos hi]
      rfl
    · rw [if_neg hi, List.getElem?_eq_none (by simpa using Nat.le_of_not_lt hi)]
      rfl
  have htake : b2.take off = buf.take off := by
    apply List.ext_getElem?
    intro i
    rw [List.getElem?_take, List.getElem?_take]
    by_cases hio : i < off
    · rw [if_pos hio, if_pos hio, hb2get i, if_pos (by omega), if_neg (by omega)]
      exact hb1some i (by omega)
    · rw [if_neg hio, if_neg hio]
  have hdrop : b2.drop (off + d) = buf.drop off := by
    apply List.ext_getElem?
    intro j
    rw [List.getElem?_drop, List.getElem?_drop]
    by_cases hj : j < n - off
    · rw [hb2get (off + d + j), if_pos (by omega), if_pos (by omega)]
      have harith : off + (off + d + j - (off + d)) = off + j := by omega
      rw [harith]
      exact hb1some (off + j) (by omega)
    · rw [hb2get (off + d + j), if_neg (by omega),
        List.getElem?_eq_none (by omega : buf.length ≤ off + j)]
  show (mmWrite (mmMove (mmResize buf (n + d)) (off + d) off (n - off)) off data,
      off + d) = _
  rw [hres, ← hb2]
  unfold mmWrite
  rw [htake, ← hd, hdrop]

theorem insert_into_mmap_len (buf data : List Nat) (off : Nat) (h : off ≤ buf.length) :
    (_insert_into_mmap buf off data).1.length = buf.length + data.length := by
  rw [insert_into_mmap_eq buf data off h]
  simp [List.length_take, List.length_drop]
  omega

theorem insertSeq_spec (ds : List (List Nat)) :
    ∀ (buf : List Nat) (off : Nat), off ≤ buf.length →
    (insertSeq (buf, off) ds).1.length = buf.length + (ds.map List.length).sum ∧
    (insertSeq (buf, off) ds).2 = off + (ds.map List.length).sum ∧
    (insertSeq (buf, off) ds).1.drop (off + (ds.map List.length).sum) = buf.drop off := by
  induction ds with
  | nil =>
    intro buf off h
    refine ⟨by simp [insertSeq], by simp [insertSeq], by simp [insertSeq]⟩
  | cons e ds ih =>
    intro buf off h
    have heq := insert_into_mmap_eq buf e off h
    have hstep : insertSeq (buf, off) (e :: ds) =
        insertSeq (buf.take off ++ e ++ buf.drop off, off + e.length) ds := by
      simp only [insertSeq, List.foldl_cons, heq]
    have hlen : (buf.take off ++ e ++ buf.drop off).length =
        buf.length + e.length := by
      simp [List.length_take, List.length_drop]
      omega
    have hoff : off + e.length ≤ (buf.take off ++ e ++ buf.drop off).length := by
      rw [hlen]; omega
    obtain ⟨l1, l2, l3⟩ := ih _ _ hoff
    have hdropmid : (buf.take off ++ e ++ buf.drop off).drop (off + e.length) =
        buf.drop off := by
      have hl : (buf.take off ++ e).length = off + e.length := by
        simp [List.length_take]
        omega
      calc (buf.take off ++ e ++ buf.drop off).drop (off + e.length)
          = ((buf.take off ++ e) ++ buf.drop off).drop ((buf.take off ++ e).length + 0) := by
            rw [hl, Nat.add_zero]
        _ = (buf.drop off).drop 0 := by rw [List.drop_append]
        _ = buf.drop off := by simp
    refine ⟨?_, ?_, ?_⟩
    · rw [hstep, l1, hlen]
      simp
      omega
    · rw [hstep, l2]
      simp
      omega
    · rw [hstep]
      have harith : off + ((e :: ds).map List.length).sum =
          (off + e.length) + (ds.map List.length).sum := by
        simp
        omega
      rw [harith, l3, hdropmid]

/-- C1.  The insertion primitive is length- and content-correct: for a
buffer state with the cursor inside the buffer, `_insert_into_mmap`
grows the buffer by `len data`, writes `data` at the cursor, shifts the
former bytes at and after the cursor up by `len data`, and advances the
cursor by exactly `len data`; and any sequence of insertions (so in
particular any `N ≥ 2` of them) grows the buffer by the sum of the data
lengths and reproduces the bytes originally at and after the initial
cursor, unperturbed, shifted up by that sum. -/
theorem c1_insert_into_mmap_correct (buf data : List Nat) (off : Nat)
    (h : off ≤ buf.length) (ds : List (List Nat)) :
    (_insert_into_mmap buf off data).1.length = buf.length + data.length ∧
    (_insert_into_mmap buf off data).2 = off + data.length ∧
    (∀ k, k < data.length → (_insert_into_mmap buf off data).1[off + k]? = data[k]?) ∧
    (∀ j, off ≤ j → j < buf.length →
      (_insert_into_mmap buf off data).1[j + data.length]? = buf[j]?) ∧
    (insertSeq (buf, off) ds).1.length = buf.length + (ds.map List.length).sum ∧
    (insertSeq (buf, off) ds).2 = off + (ds.map List.length).sum ∧
    (insertSeq (buf, off) ds).1.drop (off + (ds.map List.length).sum) = buf.drop off := by
  obtain ⟨s1, s2, s3⟩ := insertSeq_spec ds buf off h
  have heq := insert_into_mmap_eq buf data off h
  have htlen : (buf.take off).length = off := by
    simp [List.length_take]
    omega
  refine ⟨insert_into_mmap_len buf data off h, by rw [heq], ?_, ?_, s1, s2, s3⟩
  · intro k hk
    rw [heq]
    show (buf.take off ++ data ++ buf.drop off)[off + k]? = data[k]?
    rw [List.append_assoc]
    rw [List.getElem?_append_right (by omega : (buf.take off).length ≤ off + k), htlen]
    have : off + k - off = k := by omega
    rw [this, List.getElem?_append_left hk]
  · intro j hj hjlen
    rw [heq]
    show (buf.take off ++ data ++ buf.drop off)[j + data.length]? = buf[j]?
    rw [List.append_assoc]
    rw [List.getElem?_append_right (by omega : (buf.take off).length ≤ j + data.length),
      htlen]
    rw [List.getElem?_append_right (by omega : data.length ≤ j + data.length - off)]
    rw [List.getElem?_drop]
    congr 1
    omega

/-- C1 witness: the insertion facts evaluated at a concrete buffer,
cursor and two-element insertion sequence. -/
theorem c1_insert_into_mmap_correct_witness :
    (_insert_into_mmap [1, 2, 3] 1 [9]).1.length = 3 + 1 ∧
    (insertSeq ([1, 2, 3], 1) [[7], [8, 8]]).1.length = 3 + 3 ∧
    (insertSeq ([1, 2, 3], 1) [[7], [8, 8]]).2 = 1 + 3 ∧
    (insertSeq ([1, 2, 3], 1) [[7], [8, 8]]).1.drop (1 + 3) = [2, 3] := by
  have h := c1_insert_into_mmap_correct [1, 2, 3] [9] 1 (by decide) [[7], [8, 8]]
  refine ⟨h.1, by simpa using h.2.2.2.2.1, by simpa using h.2.2.2.2.2.1, ?_⟩
  have h3 := h.2.2.2.2.2.2
  simpa using h3

/-! ## Lemmas about the validator -/

theorem check_readonly (desc : FeatDesc) (cur req : PyVal)
    (hty : tyEq req desc.ftype = true) (hed : desc.edit ≠ 'y') :
    check_feature_change_valid desc cur req = .readOnly := by
  unfold check_feature_change_valid
  rw [hty]
  simp [hed]

/-- C2.  For an editable numeric feature: with a `FileDefined` lower
bound the validator accepts only requests at or above the current value
and otherwise rejects below-minimum carrying the current value as the
effective bound; with a literal lower bound it accepts only requests at
or above the literal and rejections carry the literal; and the upper
bound behaves symmetrically (its rejection fires once the lower check,
evaluated first, passes). -/
theorem c2_validator_bounds (desc : FeatDesc) (cur req : PyVal)
    (hty : tyEq req desc.ftype = true) (hnb : desc.ftype ≠ .bool)
    (hed : desc.edit = 'y') :
    ((desc.lo = .fileDefined →
       (check_feature_change_valid desc cur req = .ok → toRat cur ≤ toRat req) ∧
       (toRat req < toRat cur →
         check_feature_change_valid desc cur req = .minEx cur)) ∧
     (∀ b, desc.lo = .lit b →
       (check_feature_change_valid desc cur req = .ok → toRat b ≤ toRat req) ∧
       (toRat req < toRat b →
         check_feature_change_valid desc cur req = .minEx b))) ∧
    ((desc.hi = .fileDefined →
       (check_feature_change_valid desc cur req = .ok → toRat req ≤ toRat cur) ∧
       (toRat cur < toRat req → loPass desc cur req →
         check_feature_change_valid desc cur req = .maxEx cur)) ∧
     (∀ b, desc.hi = .lit b →
       (check_feature_change_valid desc cur req = .ok → toRat req ≤ toRat b) ∧
       (toRat b < toRat req → loPass desc cur req →
         check_feature_change_valid desc cur req = .maxEx b))) := by
  have hbool : isBoolV req = false := by
    cases req <;> cases hft : desc.ftype <;> simp_all [tyEq, isBoolV]
  have hchF : desc.lo = .fileDefined →
      check_feature_change_valid desc cur req =
        if toRat req < toRat cur then .minEx cur else checkUpper desc cur req := by
    intro hlo
    unfold check_feature_change_valid
    rw [hty, hed, hlo]
    simp [hbool]
  have hchL : ∀ b, desc.lo = .lit b →
      check_feature_change_valid desc cur req =
        if toRat req < toRat b then .minEx b else checkUpper desc cur req := by
    intro b hlo
    unfold check_feature_change_valid
    rw [hty, hed, hlo]
    simp [hbool]
  have hup_of_ok : check_feature_change_valid desc cur req = .ok →
      checkUpper desc cur req = .ok := by
    intro hok
    rcases hlo : desc.lo with _ | b
    · rw [hchF hlo] at hok
      by_cases hc : toRat req < toRat cur
      · rw [if_pos hc] at hok
        exact absurd hok (by simp)
      · rw [if_neg hc] at hok
        exact hok
    · rw [hchL b hlo] at hok
      by_cases hc : toRat req < toRat b
      · rw [if_pos hc] at hok
        exact absurd hok (by simp)
      · rw [if_neg hc] at hok
        exact hok
  have hpass_eq : loPass desc cur req →
      check_feature_change_valid desc cur req = checkUpper desc cur req := by
    intro hp
    rcases hlo : desc.lo with _ | b
    · rw [hchF hlo, if_neg (hp.1 hlo)]
    · rw [hchL b hlo, if_neg (hp.2 b hlo)]
  have hupF : desc.hi = .fileDefined → checkUpper desc cur req =
      if toRat cur < toRat req then .maxEx cur else .ok := by
    intro hhi
    unfold checkUpper
    rw [hhi]
  have hupL : ∀ b, desc.hi = .lit b → checkUpper desc cur req =
      if toRat b < toRat req then .maxEx b else .ok := by
    intro b hhi
    unfold checkUpper
    rw [hhi]
  refine ⟨⟨?_, ?_⟩, ?_, ?_⟩
  · intro hlo
    refine ⟨?_, ?_⟩
    · intro hok
      by_contra hlt
      rw [hchF hlo, if_pos (not_le.mp hlt)] at hok
      exact absurd hok (by simp)
    · intro hlt
      rw [hchF hlo, if_pos hlt]
  · intro b hlo
    refine ⟨?_, ?_⟩
    · intro hok
      by_contra hlt
      rw [hchL b hlo, if_pos (not_le.mp hlt)] at hok
      exact absurd hok (by simp)
    · intro hlt
      rw [hchL b hlo, if_pos hlt]
  · intro hhi
    refine ⟨?_, ?_⟩
    · intro hok
      have h2 := hup_of_ok hok
      rw [hupF hhi] at h2
      by_cases hc : toRat cur < toRat req
      · rw [if_pos hc] at h2
        exact absurd h2 (by simp)
      · exact not_lt.mp hc
    · intro hlt hp
      rw [hpass_eq hp, hupF hhi, if_pos hlt]
  · intro b hhi
    refine ⟨?_, ?_⟩
    · intro hok
      have h2 := hup_of_ok hok
      rw [hupL b hhi] at h2
      by_cases hc : toRat b < toRat req
      · rw [if_pos hc] at h2
        exact absurd h2 (by simp)
      · exact not_lt.mp hc
    · intro hlt hp
      rw [hpass_eq hp, hupL b hhi, if_pos hlt]

/-- C2 witness: `count_page`-shaped descriptor (editable integer with a
`FileDefined` lower bound), current value 5, request 3: rejected below
minimum with the current value as the carried bound. -/
theorem c2_validator_bounds_witness :
    check_feature_change_valid (dIF 1341 'y') (.i 5) (.i 3) = .minEx (.i 5) :=
  ((c2_validator_bounds (dIF 1341 'y') (.i 5) (.i 3) (by decide) (by decide)
    (by decide)).1.1 rfl).2 (by norm_num [toRat])

/-- C10.  No boolean-typed feature is directly editable: the only two
boolean features in the catalog are `box_other_only` and
`pdfid_mismatch`, both with edit status `'m'`, so every type-correct
boolean change request is rejected as read-only before the boolean
range-skip branch is reached, and no boolean change is ever accepted. -/
theorem c10_no_editable_bool :
    ∀ name desc, (name, desc) ∈ _pdfrate_feature_descriptions →
      desc.ftype = .bool →
      ((name = "box_other_only" ∨ name = "pdfid_mismatch") ∧ desc.edit = 'm') ∧
      ∀ cur req, tyEq req .bool = true →
        check_feature_change_valid desc cur req = .readOnly ∧
        check_feature_change_valid desc cur req ≠ .ok := by
  have hscan : ∀ e ∈ _pdfrate_feature_descriptions, e.2.ftype = .bool →
      (e.1 = "box_other_only" ∨ e.1 = "pdfid_mismatch") ∧ e.2.edit = 'm' := by
    decide
  intro name desc hmem hbool
  have hnd := hscan (name, desc) hmem hbool
  refine ⟨hnd, ?_⟩
  intro cur req hty
  have hro := check_readonly desc cur req (by rw [hbool]; exact hty)
    (by rw [hnd.2]; decide)
  exact ⟨hro, by rw [hro]; simp⟩

/-- C10 witness: the `box_other_only` catalog entry, with a type-correct
boolean request, is rejected read-only. -/
theorem c10_no_editable_bool_witness :
    check_feature_change_valid (dBB 'm') (.b false) (.b true) = .readOnly ∧
    ("box_other_only" = "box_other_only" ∨ "box_other_only" = "pdfid_mismatch") ∧
    (dBB 'm').edit = 'm' := by
  have h := c10_no_editable_bool "box_other_only" (dBB 'm') (by decide) rfl
  exact ⟨(h.2 (.b false) (.b true) rfl).1, h.1⟩

/-! ## Generic fold induction -/

theorem foldl_rec {α σ : Type} (P : σ → Prop) (f : σ → α → σ)
    (l : List α) (s : σ) (h0 : P s) (hstep : ∀ s a, a ∈ l → P s → P (f s a)) :
    P (l.foldl f s) := by
  induction l generalizing s with
  | nil => exact h0
  | cons a t ih =>
    exact ih (f s a) (hstep s a (List.mem_cons_self a t) h0)
      (fun s' b hb hP => hstep s' b (List.mem_cons_of_mem _ hb) hP)

/-! ## The stepOK relation -/

theorem stepOK_refl (st : MSt) : stepOK st st :=
  ⟨fun _ h => h, fun _ h => Or.inl h, fun _ _ => rfl, fun h => h, fun _ h1 h2 => ⟨h1, h2⟩⟩

theorem dictKeys_subset_of_entries {β : Type} {d1 d2 : List (String × β)}
    (h : ∀ kv ∈ d2, kv ∈ d1) : ∀ k ∈ dictKeys d2, k ∈ dictKeys d1 := by
  intro k hk
  obtain ⟨kv, hkv, rfl⟩ := List.mem_map.mp hk
  exact List.mem_map.mpr ⟨kv, h kv hkv, rfl⟩

theorem stepOK_trans {s1 s2 s3 : MSt} (h12 : stepOK s1 s2) (h23 : stepOK s2 s3) :
    stepOK s1 s3 := by
  obtain ⟨a12, b12, c12, d12, e12⟩ := h12
  obtain ⟨a23, b23, c23, d23, e23⟩ := h23
  refine ⟨fun kv h => a12 kv (a23 kv h), ?_, ?_, fun h => d23 (d12 h), ?_⟩
  · intro k hk
    rcases b23 k hk with h | h
    · exact b12 k h
    · exact Or.inr (dictKeys_subset_of_entries a12 k h)
  · intro k hk
    have hk2 : k ∉ dictKeys s2.toChange :=
      fun hmem => hk (dictKeys_subset_of_entries a12 k hmem)
    rw [c23 k hk2, c12 k hk]
  · intro k h1 h2
    obtain ⟨hr2, ht2⟩ := e23 k h1 h2
    exact e12 k hr2 ht2

theorem stepOK_bufOnly (st : MSt) (b : List Nat) (o : Nat) :
    stepOK st { st with buf := b, off := o } :=
  ⟨fun _ h => h, fun _ h => Or.inl h, fun _ _ => rfl, fun h => h, fun _ h1 h2 => ⟨h1, h2⟩⟩

theorem stepOK_mfInsert (st : MSt) (data : List Nat) :
    stepOK st (mfInsert st data) :=
  stepOK_bufOnly st _ _

theorem stepOK_move (st : MSt) (k : String) (v : RVal) (b : List Nat) (o : Nat)
    (hk : k ∈ dictKeys st.toChange) :
    stepOK st { buf := b, off := o, toChange := dictErase k st.toChange,
                report := dictSet k v st.report } := by
  refine ⟨?_, ?_, ?_, ?_, ?_⟩
  · exact fun kv h => mem_of_mem_dictErase h
  · intro k' hk'
    rcases mem_dictKeys_dictSet hk' with h | h
    · exact Or.inl h
    · exact Or.inr (h ▸ hk)
  · intro k' hk'
    have : k' ≠ k := fun he => hk' (he ▸ hk)
    exact dlookup_dictSet_ne v st.report this
  · exact fun h => nodup_dictKeys_dictErase k h
  · intro k' hr' ht'
    have hne : k' ≠ k := by
      intro he
      subst he
      exact not_mem_dictKeys_dictErase k' st.toChange ht'
    rcases mem_dictKeys_dictSet hr' with h | h
    · exact ⟨h, mem_dictKeys_dictErase ht'⟩
    · exact absurd h hne

theorem stepOK_foldl {α : Type} (f : MSt → α → MSt) (l : List α) (st : MSt)
    (h : ∀ s a, a ∈ l → stepOK s (f s a)) : stepOK st (l.foldl f st) := by
  induction l generalizing st with
  | nil => exact stepOK_refl st
  | cons a t ih =>
    exact stepOK_trans (h st a (List.mem_cons_self a t))
      (ih (f st a) (fun s b hb => h s b (List.mem_cons_of_mem _ hb)))

/-! ## stepOK facts for the pipeline steps -/

theorem stepOK_versionStep (ctx : Ctx) (st : MSt) : stepOK st (versionStep ctx st) := by
  unfold versionStep
  rcases h : dlookup "version" st.toChange with _ | v
  · exact stepOK_refl st
  · rcases ctx.versionPos with _ | p
    · exact stepOK_refl st
    · exact stepOK_move st "version" (.v v) _ _
        ((mem_dictKeys_iff_isSome _ _).mpr (h ▸ rfl))

theorem stepOK_incOne (ctx : Ctx) (st : MSt) (p : String × List Nat) :
    stepOK st (incOne ctx st p) := by
  unfold incOne
  rcases h : dlookup p.1 st.toChange with _ | v
  · exact stepOK_refl st
  · exact stepOK_move st p.1 (.v v) _ _
      ((mem_dictKeys_iff_isSome _ _).mpr (h ▸ rfl))

theorem stepOK_incrementStep (ctx : Ctx) (st : MSt) :
    stepOK st (incrementStep ctx st) :=
  stepOK_foldl _ _ st (fun s a _ => stepOK_incOne ctx s a)

theorem stepOK_moddateTsPart (ctx : Ctx) (st : MSt) :
    stepOK st (moddateTsPart ctx st).2 := by
  unfold moddateTsPart
  rcases h : dlookup "moddate_ts" st.toChange with _ | v
  · exact stepOK_refl st
  · exact stepOK_move st "moddate_ts" (.v v) _ _
      ((mem_dictKeys_iff_isSome _ _).mpr (h ▸ rfl))

theorem stepOK_moddateTzPart (ctx : Ctx) (st : MSt) :
    stepOK st (moddateTzPart ctx st).2 := by
  unfold moddateTzPart
  rcases h : dlookup "moddate_tz" st.toChange with _ | v
  · exact stepOK_refl st
  · exact stepOK_move st "moddate_tz" (.v v) _ _
      ((mem_dictKeys_iff_isSome _ _).mpr (h ▸ rfl))

theorem stepOK_moddateFinish (ctx : Ctx) (t z : List Nat × MSt) :
    stepOK z.2 (moddateFinish ctx t z) := by
  unfold moddateFinish
  rcases ctx.moddateLine with _ | line
  · exact stepOK_mfInsert _ _
  · show stepOK z.2 (if (enc "D:" ++ t.1 ++ z.1).length = line.2.length then
        { z.2 with buf := mmWrite z.2.buf line.1 (enc "D:" ++ t.1 ++ z.1) }
      else mfInsert z.2 (enc "/ModDate(D:" ++ t.1 ++ z.1 ++ enc ")"))
    by_cases hlen : (enc "D:" ++ t.1 ++ z.1).length = line.2.length
    · rw [if_pos hlen]
      exact stepOK_bufOnly _ _ _
    · rw [if_neg hlen]
      exact stepOK_mfInsert _ _

theorem stepOK_moddateStep (ctx : Ctx) (st : MSt) : stepOK st (moddateStep ctx st) := by
  unfold moddateStep
  split
  · exact stepOK_trans (stepOK_moddateTsPart ctx st)
      (stepOK_trans (stepOK_moddateTzPart ctx (moddateTsPart ctx st).2)
        (stepOK_moddateFinish ctx _ _))
  · exact stepOK_refl st

theorem stepOK_createdateTsPart (ctx : Ctx) (st : MSt) :
    stepOK st (createdateTsPart ctx st).2 := by
  unfold createdateTsPart
  rcases h : dlookup "createdate_ts" st.toChange with _ | v
  · exact stepOK_refl st
  · exact stepOK_move st "createdate_ts" (.v v) _ _
      ((mem_dictKeys_iff_isSome _ _).mpr (h ▸ rfl))

theorem stepOK_createdateTzPart (ctx : Ctx) (st : MSt) :
    stepOK st (createdateTzPart ctx st).2 := by
  unfold createdateTzPart
  rcases h : dlookup "createdate_tz" st.toChange with _ | v
  · exact stepOK_refl st
  · exact stepOK_move st "createdate_tz" (.v v) _ _
      ((mem_dictKeys_iff_isSome _ _).mpr (h ▸ rfl))

theorem stepOK_createdateFinish (ctx : Ctx) (t z : List Nat × MSt) :
    stepOK z.2 (createdateFinish ctx t z) := by
  unfold createdateFinish
  rcases ctx.createdateLine with _ | line
  · exact stepOK_mfInsert _ _
  · show stepOK z.2 (if (t.1 ++ z.1).length = line.2.length then
        { z.2 with buf := mmWrite z.2.buf line.1 (t.1 ++ z.1) }
      else mfInsert z.2 (enc "<xap:CreateDate>" ++ t.1 ++ z.1
        ++ enc "</xap:CreateDate>"))
    by_cases hlen : (t.1 ++ z.1).length = line.2.length
    · rw [if_pos hlen]
      exact stepOK_bufOnly _ _ _
    · rw [if_neg hlen]
      exact stepOK_mfInsert _ _

theorem stepOK_createdateStep (ctx : Ctx) (st : MSt) :
    stepOK st (createdateStep ctx st) := by
  unfold createdateStep
  split
  · exact stepOK_trans (stepOK_createdateTsPart ctx st)
      (stepOK_trans (stepOK_createdateTzPart ctx (createdateTsPart ctx st).2)
        (stepOK_createdateFinish ctx _ _))
  · exact stepOK_refl st

theorem stepOK_sizeStep (st : MSt) : stepOK st (sizeStep st) := by
  unfold sizeStep
  rcases h : dlookup "size" st.toChange with _ | v
  · exact stepOK_refl st
  · show stepOK st (if 0 < intVal v - (st.buf.length : ℤ) then
        { mfInsert st (pyRepeat (enc " ") (intVal v - (st.buf.length : ℤ))) with
          toChange := dictErase "size"
            (mfInsert st (pyRepeat (enc " ") (intVal v - (st.buf.length : ℤ)))).toChange,
          report := dictSet "size" (.v v)
            (mfInsert st (pyRepeat (enc " ") (intVal v - (st.buf.length : ℤ)))).report }
      else st)
    by_cases hc : 0 < intVal v - (st.buf.length : ℤ)
    · rw [if_pos hc]
      exact stepOK_move st "size" (.v v) _ _
        ((mem_dictKeys_iff_isSome _ _).mpr (h ▸ rfl))
    · rw [if_neg hc]
      exact stepOK_refl st

/-! ## Lemmas about the metadata step -/

theorem string_data_inj {s1 s2 : String} (h : s1.data = s2.data) : s1 = s2 := by
  cases s1
  cases s2
  exact congrArg String.mk h

theorem strAppend_right_inj {pfx s1 s2 : String}
    (h : pfx ++ "_" ++ s1 = pfx ++ "_" ++ s2) : s1 = s2 := by
  have hd : (pfx ++ "_").data ++ s1.data = (pfx ++ "_").data ++ s2.data := by
    have h2 := congrArg String.data h
    simpa [String.data_append] using h2
  exact string_data_inj (List.append_cancel_left hd)

/-- Catalog fact: for each metadata field, every editable catalog
feature matched by the field's filter is recovered exactly by gluing the
field name, an underscore and the dropped suffix back together. -/
theorem meta_recover :
    ∀ fld ∈ _metadata_feats, ∀ e ∈ _pdfrate_feature_descriptions,
      metaMatch fld.1 e.1 = true → e.2.edit = 'y' →
      fld.1 ++ "_" ++ strDrop e.1 (fld.1.length + 1) = e.1 := by
  decide

theorem descOf_edit_mem {k : String} (h : (descOf k).edit = 'y') :
    (k, descOf k) ∈ _pdfrate_feature_descriptions := by
  unfold descOf at h ⊢
  rcases hl : dlookup k _pdfrate_feature_descriptions with _ | d
  · rw [hl] at h
    exact absurd h (by decide)
  · simpa using dlookup_some_mem hl

theorem fieldSubs_recover {fld : String × List Nat × List Nat}
    (hfld : fld ∈ _metadata_feats) {tc : List (String × PyVal)}
    (hv : ∀ kv ∈ tc, (descOf kv.1).edit = 'y') :
    ∀ kv ∈ tc.filter (fun kv => metaMatch fld.1 kv.1),
      fld.1 ++ "_" ++ strDrop kv.1 (fld.1.length + 1) = kv.1 := by
  intro kv hkv
  have hmem := List.mem_of_mem_filter hkv
  have hmatch : metaMatch fld.1 kv.1 = true := by
    have := List.of_mem_filter hkv
    simpa using this
  have hy := hv kv hmem
  exact meta_recover fld hfld (kv.1, descOf kv.1) (descOf_edit_mem hy) hmatch hy

theorem fieldSubs_mem_keys {fld : String × List Nat × List Nat}
    (hfld : fld ∈ _metadata_feats) {tc : List (String × PyVal)}
    (hv : ∀ kv ∈ tc, (descOf kv.1).edit = 'y') :
    ∀ suf ∈ fieldSubs fld.1 tc, (fld.1 ++ "_" ++ suf) ∈ dictKeys tc := by
  intro suf hsuf
  obtain ⟨kv, hkv, rfl⟩ := List.mem_map.mp hsuf
  rw [fieldSubs_recover hfld hv kv hkv]
  exact List.mem_map.mpr ⟨kv, List.mem_of_mem_filter hkv, rfl⟩

theorem fieldSubs_nodup {fld : String × List Nat × List Nat}
    (hfld : fld ∈ _metadata_feats) {tc : List (String × PyVal)}
    (hv : ∀ kv ∈ tc, (descOf kv.1).edit = 'y')
    (hnd : (dictKeys tc).Nodup) : (fieldSubs fld.1 tc).Nodup := by
  have hkeysnd : ((tc.filter (fun kv => metaMatch fld.1 kv.1)).map Prod.fst).Nodup :=
    List.Nodup.sublist (List.Sublist.map _ (List.filter_sublist tc)) hnd
  have hmap : (tc.filter (fun kv => metaMatch fld.1 kv.1)).map Prod.fst =
      (fieldSubs fld.1 tc).map (fun s => fld.1 ++ "_" ++ s) := by
    unfold fieldSubs
    rw [List.map_map]
    apply List.map_congr_left
    intro kv hkv
    exact (fieldSubs_recover hfld hv kv hkv).symm
  rw [hmap] at hkeysnd
  exact List.Nodup.of_map _ hkeysnd

theorem stepOK_metaLoop (pfx : String) :
    ∀ (subs : List String) (acc : List Nat) (st : MSt),
      subs.Nodup →
      (∀ suf ∈ subs, (pfx ++ "_" ++ suf) ∈ dictKeys st.toChange) →
      stepOK st (subs.foldl (metaLoopBody pfx) (acc, st)).2 := by
  intro subs
  induction subs with
  | nil =>
    intro acc st _ _
    exact stepOK_refl st
  | cons suf rest ih =>
    intro acc st hnd hks
    have hk : (pfx ++ "_" ++ suf) ∈ dictKeys st.toChange :=
      hks suf (List.mem_cons_self _ _)
    have hbody : stepOK st (metaLoopBody pfx (acc, st) suf).2 :=
      stepOK_move st _ _ _ _ hk
    have hks' : ∀ s ∈ rest,
        (pfx ++ "_" ++ s) ∈ dictKeys (metaLoopBody pfx (acc, st) suf).2.toChange := by
      intro s hs
      have hneq : (pfx ++ "_" ++ s) ≠ (pfx ++ "_" ++ suf) := by
        intro he
        have hss := strAppend_right_inj he
        rw [List.nodup_cons] at hnd
        exact hnd.1 (hss ▸ hs)
      have hmem := hks s (List.mem_cons_of_mem _ hs)
      rw [mem_dictKeys_iff_isSome] at hmem ⊢
      show (dlookup (pfx ++ "_" ++ s)
        (dictErase (pfx ++ "_" ++ suf) st.toChange)).isSome = true
      rw [dlookup_dictErase_ne _ hneq]
      exact hmem
    have hrest := ih (metaLoopBody pfx (acc, st) suf).1
      (metaLoopBody pfx (acc, st) suf).2 (List.nodup_cons.mp hnd).2 hks'
    exact stepOK_trans hbody hrest

theorem stepOK_metaFieldFinish (fld : String × List Nat × List Nat)
    (r : List Nat × MSt) : stepOK r.2 (metaFieldFinish fld r) := by
  unfold metaFieldFinish
  split
  · exact stepOK_mfInsert _ _
  · exact stepOK_refl _

theorem stepOK_metaFieldStep (st : MSt) (fld : String × List Nat × List Nat)
    (hfld : fld ∈ _metadata_feats)
    (hv : ∀ kv ∈ st.toChange, (descOf kv.1).edit = 'y')
    (hnd : (dictKeys st.toChange).Nodup) :
    stepOK st (metaFieldStep st fld) := by
  unfold metaFieldStep
  exact stepOK_trans
    (stepOK_metaLoop fld.1 (fieldSubs fld.1 st.toChange) [] st
      (fieldSubs_nodup hfld hv hnd) (fieldSubs_mem_keys hfld hv))
    (stepOK_metaFieldFinish fld _)

theorem stepOK_metadataStep (st : MSt)
    (hv : ∀ kv ∈ st.toChange, (descOf kv.1).edit = 'y')
    (hnd : (dictKeys st.toChange).Nodup) :
    stepOK st (metadataStep st) := by
  unfold metadataStep
  have hgen : ∀ (flds : List (String × List Nat × List Nat)) (s : MSt),
      (∀ fld ∈ flds, fld ∈ _metadata_feats) →
      (∀ kv ∈ s.toChange, (descOf kv.1).edit = 'y') →
      (dictKeys s.toChange).Nodup →
      stepOK s (flds.foldl metaFieldStep s) := by
    intro flds
    induction flds with
    | nil =>
      intro s _ _ _
      exact stepOK_refl s
    | cons fld rest ih =>
      intro s hmem hv' hnd'
      have hstep := stepOK_metaFieldStep s fld (hmem fld (List.mem_cons_self _ _)) hv' hnd'
      refine stepOK_trans hstep (ih (metaFieldStep s fld)
        (fun f hf => hmem f (List.mem_cons_of_mem _ hf)) ?_ (hstep.2.2.2.1 hnd'))
      intro kv hkv
      exact hv' kv (hstep.1 kv hkv)
  exact hgen _metadata_feats st (fun _ h => h) hv hnd

/-! ## Lemmas about Step 1 -/

theorem validateOne_cases (fv : String → PyVal) (st : MSt) (kv : String × PyVal) :
    validateOne fv st kv = st ∨
    (validateOne fv st kv = { st with toChange := dictSet kv.1 kv.2 st.toChange } ∧
      acceptedEntry fv kv) ∨
    (∃ r, r ≠ VRes.ok ∧
      validateOne fv st kv = { st with report := dictSet kv.1 (.e r) st.report } ∧
      check_feature_change_valid (descOf kv.1) (fv kv.1) kv.2 = r) := by
  unfold validateOne
  by_cases h1 : pyEq (fv kv.1) kv.2 = false ∧ isExcV kv.2 = false
  · rw [if_pos h1]
    by_cases h2 : isFloatV kv.2 = true ∧ |toRat (fv kv.1) - toRat kv.2| < 1/1000000
    · rw [if_pos h2]
      exact Or.inl rfl
    · rw [if_neg h2]
      rcases hc : check_feature_change_valid (descOf kv.1) (fv kv.1) kv.2 with
        _ | _ | _ | b | b
      · exact Or.inr (Or.inl ⟨rfl, h1.1, hc⟩)
      · exact Or.inr (Or.inr ⟨.typeError, by simp, rfl, rfl⟩)
      · exact Or.inr (Or.inr ⟨.readOnly, by simp, rfl, rfl⟩)
      · exact Or.inr (Or.inr ⟨.minEx b, by simp, rfl, rfl⟩)
      · exact Or.inr (Or.inr ⟨.maxEx b, by simp, rfl, rfl⟩)
  · rw [if_neg h1]
    exact Or.inl rfl

theorem validateOne_rejected {ctx : Ctx} {f : String} {v : PyVal} {r : VRes}
    (h : rejectedAs ctx f v r) (s : MSt) :
    validateOne ctx.fv s (f, v) = { s with report := dictSet f (.e r) s.report } := by
  obtain ⟨h1, h2, h3, h4, h5⟩ := h
  unfold validateOne
  rw [if_pos ⟨h1, h2⟩, if_neg h3]
  cases r with
  | ok => exact absurd rfl h5
  | typeError => rw [h4]
  | readOnly => rw [h4]
  | minEx b => rw [h4]
  | maxEx b => rw [h4]

theorem validateOne_noop {fv : String → PyVal} {f : String} {v : PyVal}
    (h : pyEq (fv f) v = true ∨
      ∃ q : ℚ, v = .f q ∧ |toRat (fv f) - q| < 1/1000000) (s : MSt) :
    validateOne fv s (f, v) = s := by
  unfold validateOne
  rcases h with h | ⟨q, rfl, hq⟩
  · rw [if_neg (by simp [h])]
  · by_cases h1 : pyEq (fv f) (PyVal.f q) = false ∧ isExcV (PyVal.f q) = false
    · rw [if_pos h1, if_pos ⟨rfl, hq⟩]
    · rw [if_neg h1]

theorem step1_keys (fv : String → PyVal) :
    ∀ (req : List (String × PyVal)) (st : MSt),
    (∀ k, k ∈ dictKeys (req.foldl (validateOne fv) st).toChange →
      k ∈ dictKeys st.toChange ∨ k ∈ req.map Prod.fst) ∧
    (∀ k, k ∈ dictKeys (req.foldl (validateOne fv) st).report →
      k ∈ dictKeys st.report ∨ k ∈ req.map Prod.fst) := by
  intro req
  induction req with
  | nil =>
    intro st
    exact ⟨fun k h => Or.inl h, fun k h => Or.inl h⟩
  | cons kv t ih =>
    intro st
    constructor
    · intro k h
      rcases (ih (validateOne fv st kv)).1 k h with h1 | h1
      · rcases validateOne_cases fv st kv with he | ⟨he, _⟩ | ⟨r, _, he, _⟩
        · rw [he] at h1
          exact Or.inl h1
        · rw [he] at h1
          rcases mem_dictKeys_dictSet h1 with h2 | h2
          · exact Or.inl h2
          · exact Or.inr (by simp [h2])
        · rw [he] at h1
          exact Or.inl h1
      · exact Or.inr (by simp [List.mem_cons_of_mem _ h1])
    · intro k h
      rcases (ih (validateOne fv st kv)).2 k h with h1 | h1
      · rcases validateOne_cases fv st kv with he | ⟨he, _⟩ | ⟨r, _, he, _⟩
        · rw [he] at h1
          exact Or.inl h1
        · rw [he] at h1
          exact Or.inl h1
        · rw [he] at h1
          rcases mem_dictKeys_dictSet h1 with h2 | h2
          · exact Or.inl h2
          · exact Or.inr (by simp [h2])
      · exact Or.inr (by simp [List.mem_cons_of_mem _ h1])

theorem step1_frame (fv : String → PyVal) :
    ∀ (req : List (String × PyVal)) (st : MSt) (k : String),
      k ∉ req.map Prod.fst →
      dlookup k (req.foldl (validateOne fv) st).toChange = dlookup k st.toChange ∧
      dlookup k (req.foldl (validateOne fv) st).report = dlookup k st.report := by
  intro req
  induction req with
  | nil => exact fun st k _ => ⟨rfl, rfl⟩
  | cons kv t ih =>
    intro st k hk
    have hk1 : k ≠ kv.1 := by
      intro he
      exact hk (by simp [he])
    have hk2 : k ∉ t.map Prod.fst := by
      intro he
      exact hk (by simp [he])
    rcases validateOne_cases fv st kv with he | ⟨he, _⟩ | ⟨r, _, he, _⟩
    · rw [List.foldl_cons, he]
      exact ih st k hk2
    · rw [List.foldl_cons, he]
      obtain ⟨iht, ihr⟩ :=
        ih { st with toChange := dictSet kv.1 kv.2 st.toChange } k hk2
      refine ⟨?_, ihr⟩
      rw [iht]
      exact dlookup_dictSet_ne kv.2 st.toChange hk1
    · rw [List.foldl_cons, he]
      obtain ⟨iht, ihr⟩ :=
        ih { st with report := dictSet kv.1 (.e r) st.report } k hk2
      refine ⟨iht, ?_⟩
      rw [ihr]
      exact dlookup_dictSet_ne (.e r) st.report hk1

theorem step1_acceptedInv (fv : String → PyVal) (req : List (String × PyVal))
    (st : MSt) (h0 : tcAccepted fv st) :
    tcAccepted fv (req.foldl (validateOne fv) st) := by
  refine foldl_rec (tcAccepted fv) _ req st h0 ?_
  intro s kv _ hP
  rcases validateOne_cases fv s kv with he | ⟨he, hacc⟩ | ⟨r, _, he, _⟩
  · rw [he]
    exact hP
  · rw [he]
    intro kv' hkv'
    rcases mem_dictSet_elim hkv' with h | h
    · rw [h]
      exact hacc
    · exact hP kv' h
  · rw [he]
    exact hP

theorem step1_nodups (fv : String → PyVal) (req : List (String × PyVal))
    (st : MSt) (h1 : (dictKeys st.toChange).Nodup)
    (h2 : (dictKeys st.report).Nodup) :
    (dictKeys (req.foldl (validateOne fv) st).toChange).Nodup ∧
    (dictKeys (req.foldl (validateOne fv) st).report).Nodup := by
  refine foldl_rec
    (fun s => (dictKeys s.toChange).Nodup ∧ (dictKeys s.report).Nodup)
    _ req st ⟨h1, h2⟩ ?_
  intro s kv _ hP
  rcases validateOne_cases fv s kv with he | ⟨he, _⟩ | ⟨r, _, he, _⟩
  · rw [he]
    exact hP
  · rw [he]
    exact ⟨nodup_dictKeys_dictSet kv.1 kv.2 hP.1, hP.2⟩
  · rw [he]
    exact ⟨hP.1, nodup_dictKeys_dictSet kv.1 (.e r) hP.2⟩

theorem step1_disjoint (fv : String → PyVal) :
    ∀ (req : List (String × PyVal)) (st : MSt),
      (req.map Prod.fst).Nodup →
      (∀ k, k ∈ dictKeys st.toChange → k ∉ req.map Prod.fst) →
      (∀ k, k ∈ dictKeys st.report → k ∉ req.map Prod.fst) →
      (∀ k, k ∈ dictKeys st.report → k ∉ dictKeys st.toChange) →
      ∀ k, k ∈ dictKeys (req.foldl (validateOne fv) st).report →
        k ∉ dictKeys (req.foldl (validateOne fv) st).toChange := by
  intro req
  induction req with
  | nil => exact fun st _ _ _ hd => hd
  | cons kv t ih =>
    intro st hnd htf hrf hd
    rw [List.map_cons, List.nodup_cons] at hnd
    have hfresh_t : kv.1 ∉ dictKeys st.toChange := fun h => htf kv.1 h (by simp)
    have hfresh_r : kv.1 ∉ dictKeys st.report := fun h => hrf kv.1 h (by simp)
    rcases validateOne_cases fv st kv with he | ⟨he, _⟩ | ⟨r, _, he, _⟩
    · rw [List.foldl_cons, he]
      exact ih st hnd.2 (fun k hk => fun hmem => htf k hk (by simp [hmem]))
        (fun k hk hmem => hrf k hk (by simp [hmem])) hd
    · rw [List.foldl_cons, he]
      refine ih _ hnd.2 ?_ ?_ ?_
      · intro k hk hmem
        rcases mem_dictKeys_dictSet hk with h | h
        · exact htf k h (by simp [hmem])
        · exact hnd.1 (h ▸ hmem)
      · intro k hk hmem
        exact hrf k hk (by simp [hmem])
      · intro k hk hmem
        rcases mem_dictKeys_dictSet hmem with h | h
        · exact hd k hk h
        · exact hfresh_r (h ▸ hk)
    · rw [List.foldl_cons, he]
      refine ih _ hnd.2 ?_ ?_ ?_
      · intro k hk hmem
        exact htf k hk (by simp [hmem])
      · intro k hk hmem
        rcases mem_dictKeys_dictSet hk with h | h
        · exact hrf k h (by simp [hmem])
        · exact hnd.1 (h ▸ hmem)
      · intro k hk hmem
        rcases mem_dictKeys_dictSet hk with h | h
        · exact hd k h hmem
        · exact hfresh_t (h ▸ hmem)

/-! ## Lemmas about finalization and the full pipeline -/

theorem foldl_wrap_frame (tc : List (String × PyVal))
    (base : List (String × Bool × RVal)) (k : String)
    (h : ∀ kv ∈ tc, kv.1 ≠ k) :
    dlookup k (tc.foldl (fun rep kv => dictSet kv.1 (false, RVal.v kv.2) rep) base) =
      dlookup k base := by
  induction tc generalizing base with
  | nil => rfl
  | cons kv t ih =>
    rw [List.foldl_cons, ih _ (fun kv' h' => h kv' (List.mem_cons_of_mem _ h'))]
    exact dlookup_dictSet_ne _ base
      (fun he => h kv (List.mem_cons_self _ _) he.symm)

theorem finalizeReport_frame (st : MSt) (k : String)
    (hk : k ∉ dictKeys st.toChange) :
    dlookup k (finalizeReport st) = (dlookup k st.report).map wrapR := by
  unfold finalizeReport
  rw [foldl_wrap_frame st.toChange _ k
    (fun kv h he => hk (he ▸ List.mem_map.mpr ⟨kv, h, rfl⟩))]
  exact dlookup_map_snd k wrapR st.report

theorem finalizeReport_leftover (st : MSt) (k : String) (v : PyVal)
    (hk : dlookup k st.toChange = some v)
    (hnd : (dictKeys st.toChange).Nodup) :
    dlookup k (finalizeReport st) = some (false, .v v) := by
  unfold finalizeReport
  obtain ⟨s1, s2, heq⟩ := List.append_of_mem (dlookup_some_mem hk)
  have hknd : (s1.map Prod.fst ++ k :: s2.map Prod.fst).Nodup := by
    have : dictKeys st.toChange = s1.map Prod.fst ++ k :: s2.map Prod.fst := by
      rw [heq]
      simp [dictKeys]
    rw [this] at hnd
    exact hnd
  have hk2 : k ∉ s2.map Prod.fst := by
    have h2 := (List.nodup_middle.mp hknd)
    rw [List.nodup_cons] at h2
    intro hmem
    exact h2.1 (List.mem_append.mpr (Or.inr hmem))
  rw [heq, List.foldl_append, List.foldl_cons]
  rw [foldl_wrap_frame s2 _ k
    (fun kv h he => hk2 (he ▸ List.mem_map.mpr ⟨kv, h, rfl⟩))]
  exact dlookup_dictSet_self k _ _

theorem acceptedEntry_edit {fv : String → PyVal} {kv : String × PyVal}
    (h : acceptedEntry fv kv) : (descOf kv.1).edit = 'y' := by
  obtain ⟨_, hok⟩ := h
  by_contra hne
  unfold check_feature_change_valid at hok
  by_cases hty : tyEq kv.2 (descOf kv.1).ftype = false
  · rw [if_pos hty] at hok
    exact absurd hok (by simp)
  · rw [if_neg hty, if_pos hne] at hok
    exact absurd hok (by simp)

theorem acceptedEntry_ty {fv : String → PyVal} {kv : String × PyVal}
    (h : acceptedEntry fv kv) : tyEq kv.2 (descOf kv.1).ftype = true := by
  obtain ⟨_, hok⟩ := h
  by_cases hty : tyEq kv.2 (descOf kv.1).ftype = false
  · unfold check_feature_change_valid at hok
    rw [if_pos hty] at hok
    exact absurd hok (by simp)
  · cases hb : tyEq kv.2 (descOf kv.1).ftype
    · exact absurd hb hty
    · rfl

theorem check_eq_fd (desc : FeatDesc) (cur req : PyVal)
    (hty : tyEq req desc.ftype = true) (hed : desc.edit = 'y')
    (hnb : isBoolV req = false) (hlo : desc.lo = .fileDefined) :
    check_feature_change_valid desc cur req =
      if toRat req < toRat cur then .minEx cur else checkUpper desc cur req := by
  unfold check_feature_change_valid
  rw [hty, hed, hlo]
  simp [hnb]

theorem check_eq_lit (desc : FeatDesc) (cur req b : PyVal)
    (hty : tyEq req desc.ftype = true) (hed : desc.edit = 'y')
    (hnb : isBoolV req = false) (hlo : desc.lo = .lit b) :
    check_feature_change_valid desc cur req =
      if toRat req < toRat b then .minEx b else checkUpper desc cur req := by
  unfold check_feature_change_valid
  rw [hty, hed, hlo]
  simp [hnb]

theorem stepOK_pipeline (ctx : Ctx) (st1 : MSt)
    (hv : ∀ kv ∈ st1.toChange, (descOf kv.1).edit = 'y')
    (hnd : (dictKeys st1.toChange).Nodup) :
    stepOK st1 (sizeStep (createdateStep ctx (moddateStep ctx (metadataStep
      (incrementStep ctx (versionStep ctx st1)))))) := by
  have h12 := stepOK_trans (stepOK_versionStep ctx st1)
    (stepOK_incrementStep ctx (versionStep ctx st1))
  have hv2 : ∀ kv ∈ (incrementStep ctx (versionStep ctx st1)).toChange,
      (descOf kv.1).edit = 'y' := fun kv hkv => hv kv (h12.1 kv hkv)
  have hnd2 := h12.2.2.2.1 hnd
  have h123 := stepOK_trans h12 (stepOK_metadataStep _ hv2 hnd2)
  exact stepOK_trans h123 (stepOK_trans (stepOK_moddateStep ctx _)
    (stepOK_trans (stepOK_createdateStep ctx _) (stepOK_sizeStep _)))

theorem stepOK_preFinal (ctx : Ctx) (req : List (String × PyVal))
    (hv : ∀ kv ∈ (step1 ctx req).toChange, (descOf kv.1).edit = 'y')
    (hnd : (dictKeys (step1 ctx req).toChange).Nodup) :
    stepOK (step1 ctx req) (preFinal ctx req) := by
  unfold preFinal
  exact stepOK_pipeline ctx (step1 ctx req) hv hnd

theorem modify_file_report (ctx : Ctx) (req : List (String × PyVal)) :
    (modify_file ctx req).report = finalizeReport (preFinal ctx req) := by
  simp only [modify_file]

theorem step1_tc_edit (ctx : Ctx) (req : List (String × PyVal)) :
    ∀ kv ∈ (step1 ctx req).toChange, (descOf kv.1).edit = 'y' := by
  intro kv hkv
  have hacc := step1_acceptedInv ctx.fv req (initSt ctx)
    (fun kv h => absurd h (List.not_mem_nil kv)) kv hkv
  exact acceptedEntry_edit hacc

theorem step1_tc_nodup (ctx : Ctx) (req : List (String × PyVal)) :
    (dictKeys (step1 ctx req).toChange).Nodup ∧
    (dictKeys (step1 ctx req).report).Nodup :=
  step1_nodups ctx.fv req (initSt ctx) (by simp [initSt, dictKeys])
    (by simp [initSt, dictKeys])

theorem step1_disjoint' (ctx : Ctx) (req : List (String × PyVal))
    (hnd : (req.map Prod.fst).Nodup) :
    ∀ k, k ∈ dictKeys (step1 ctx req).report →
      k ∉ dictKeys (step1 ctx req).toChange := by
  refine step1_disjoint ctx.fv req (initSt ctx) hnd ?_ ?_ ?_
  · intro k hk
    simp [initSt, dictKeys] at hk
  · intro k hk
    simp [initSt, dictKeys] at hk
  · intro k hk
    simp [initSt, dictKeys] at hk

/-- C8.  No-op requests leave no trace: a request entry whose value
equals the feature's current value — or is a float within `1e-6` of it —
changes nothing about the whole `modify_file` run (dropping the entry
yields the identical result), and if the feature is not otherwise
requested the returned report has no entry for it. -/
theorem c8_noop_no_trace (ctx : Ctx) (l1 l2 : List (String × PyVal))
    (f : String) (v : PyVal)
    (h : pyEq (ctx.fv f) v = true ∨
      ∃ q : ℚ, v = .f q ∧ |toRat (ctx.fv f) - q| < 1/1000000) :
    modify_file ctx (l1 ++ (f, v) :: l2) = modify_file ctx (l1 ++ l2) ∧
    (f ∉ (l1 ++ l2).map Prod.fst →
      dlookup f (modify_file ctx (l1 ++ l2)).report = none) := by
  have hstep : step1 ctx (l1 ++ (f, v) :: l2) = step1 ctx (l1 ++ l2) := by
    unfold step1
    rw [List.foldl_append, List.foldl_cons, validateOne_noop h, ← List.foldl_append]
  constructor
  · unfold modify_file preFinal
    rw [hstep]
  · intro hf
    have hf1 : f ∉ dictKeys (step1 ctx (l1 ++ l2)).toChange := by
      intro hk
      rcases (step1_keys ctx.fv (l1 ++ l2) (initSt ctx)).1 f hk with h2 | h2
      · simp [initSt, dictKeys] at h2
      · exact hf h2
    have hf2 : f ∉ dictKeys (step1 ctx (l1 ++ l2)).report := by
      intro hk
      rcases (step1_keys ctx.fv (l1 ++ l2) (initSt ctx)).2 f hk with h2 | h2
      · simp [initSt, dictKeys] at h2
      · exact hf h2
    have hpipe := stepOK_preFinal ctx (l1 ++ l2)
      (step1_tc_edit ctx (l1 ++ l2)) (step1_tc_nodup ctx (l1 ++ l2)).1
    have htk2 : f ∉ dictKeys (preFinal ctx (l1 ++ l2)).toChange :=
      fun hk => hf1 (dictKeys_subset_of_entries hpipe.1 f hk)
    rw [modify_file_report, finalizeReport_frame _ f htk2]
    have hrep : dlookup f (preFinal ctx (l1 ++ l2)).report =
        dlookup f (step1 ctx (l1 ++ l2)).report := hpipe.2.2.1 f hf1
    rw [hrep, (dlookup_eq_none_iff f _).mpr hf2]
    rfl

/-- C8 witness: requesting `author_lc = 0` on a document whose current
`author_lc` is already 0 leaves the run unchanged and produces no report
entry. -/
theorem c8_noop_no_trace_witness :
    modify_file ctxW ([] ++ ("author_lc", PyVal.i 0) :: []) = modify_file ctxW ([] ++ []) ∧
    dlookup "author_lc" (modify_file ctxW ([] ++ [])).report = none := by
  have h := c8_noop_no_trace ctxW [] [] "author_lc" (.i 0) (Or.inl (by decide))
  exact ⟨h.1, h.2 (by decide)⟩

/-! ## C3: incrementable counters -/

theorem inc_desc : ∀ p ∈ _incrementable_feats,
    (descOf p.1).ftype = .int ∧ (descOf p.1).edit = 'y' ∧
    (descOf p.1).lo = .fileDefined := by
  decide

/-- C3.  For every incrementable counter feature: any value accepted
into the change set is an integer strictly greater than the document's
current (integer) value, so the delta is strictly positive and the
`delta ≤ 0` case never occurs for an accepted change; and the Step-3
handler for a feature present in `to_change` performs exactly one batch
insertion of `delta` repetitions of the marker line (Python string
repetition, which would be empty for a non-positive delta), records the
requested value and removes the feature from `to_change`. -/
theorem c3_incrementable_counters (ctx : Ctx) (req : List (String × PyVal))
    (f : String) (marker : List Nat) (hf : (f, marker) ∈ _incrementable_feats) :
    (∀ v c, dlookup f (step1 ctx req).toChange = some v → ctx.fv f = .i c →
      ∃ m : ℤ, v = .i m ∧ c < m) ∧
    (∀ (st : MSt) (v : PyVal), dlookup f st.toChange = some v →
      incOne ctx st (f, marker) =
        { buf := (_insert_into_mmap st.buf st.off
            (pyRepeat (incChunk marker) (intVal v - intVal (ctx.fv f)))).1,
          off := (_insert_into_mmap st.buf st.off
            (pyRepeat (incChunk marker) (intVal v - intVal (ctx.fv f)))).2,
          toChange := dictErase f st.toChange,
          report := dictSet f (.v v) st.report }) ∧
    incrementStep ctx = fun st => _incrementable_feats.foldl (incOne ctx) st := by
  obtain ⟨hint, hedit, hlo⟩ := inc_desc (f, marker) hf
  refine ⟨?_, ?_, rfl⟩
  · intro v c hlk hfv
    have hacc : acceptedEntry ctx.fv (f, v) :=
      step1_acceptedInv ctx.fv req (initSt ctx)
        (fun kv h => absurd h (List.not_mem_nil kv)) (f, v) (dlookup_some_mem hlk)
    obtain ⟨hpy, hok⟩ := hacc
    have hty := acceptedEntry_ty ⟨hpy, hok⟩
    rw [hint] at hty
    obtain ⟨m, rfl⟩ : ∃ m : ℤ, v = .i m := by
      cases v <;> simp [tyEq] at hty
      exact ⟨_, rfl⟩
    refine ⟨m, rfl, ?_⟩
    rw [check_eq_fd (descOf f) (ctx.fv f) (.i m) (by rw [hint]; rfl) hedit rfl hlo]
      at hok
    by_cases hlt : toRat (.i m) < toRat (ctx.fv f)
    · rw [if_pos hlt] at hok
      exact absurd hok (by simp)
    · rw [hfv] at hpy hlt
      have hle : (c : ℚ) ≤ (m : ℚ) := not_lt.mp (by simpa [toRat] using hlt)
      have hne : (c : ℚ) ≠ (m : ℚ) := by
        simpa [pyEq, toRat] using hpy
      have : (c : ℚ) < (m : ℚ) := lt_of_le_of_ne hle hne
      exact_mod_cast this
  · intro st v hlk
    unfold incOne
    rw [show dlookup (f, marker).1 st.toChange = some v from hlk]
    rfl

/-- C3 witness: `count_page` requested to become 3 on a document with
one page marker: the accepted delta is positive and the handler inserts
the single batch, reports and consumes the feature. -/
theorem c3_incrementable_counters_witness :
    (∃ m : ℤ, PyVal.i 3 = PyVal.i m ∧ 1 < m) ∧
    incOne c3ctx c3st ("count_page", enc "/Page") =
      { buf := (_insert_into_mmap c3st.buf c3st.off
          (pyRepeat (incChunk (enc "/Page"))
            (intVal (.i 3) - intVal (c3ctx.fv "count_page")))).1,
        off := (_insert_into_mmap c3st.buf c3st.off
          (pyRepeat (incChunk (enc "/Page"))
            (intVal (.i 3) - intVal (c3ctx.fv "count_page")))).2,
        toChange := dictErase "count_page" c3st.toChange,
        report := dictSet "count_page" (.v (.i 3)) c3st.report } := by
  have h := c3_incrementable_counters c3ctx [("count_page", .i 3)] "count_page"
    (enc "/Page") (by decide)
  exact ⟨h.1 (.i 3) 1 (by decide) (by decide), h.2.1 c3st (.i 3) (by decide)⟩

/-! ## C7: size padding -/

theorem pyRepeat_length (s : List Nat) (k : ℤ) :
    (pyRepeat s k).length = k.toNat * s.length := by
  unfold pyRepeat
  split
  · rename_i h
    rw [Int.toNat_of_nonpos h]
    simp
  · rw [List.length_flatten, List.map_replicate, List.sum_replicate, smul_eq_mul]

/-- C7.  When `size` is among the accepted changes, with `cur` the
buffer length at the moment the size step runs: a request above `cur`
inserts exactly `requested − cur` filler bytes so the final length
equals the requested size and the final report marks `size` successful;
a request at or below `cur` leaves the buffer unchanged and the final
report marks `size` unapplied (`success = False`). -/
theorem c7_size_padding (st : MSt) (v : ℤ)
    (hlk : dlookup "size" st.toChange = some (.i v))
    (hoff : st.off ≤ st.buf.length)
    (hnd : (dictKeys st.toChange).Nodup) :
    (((st.buf.length : ℤ) < v →
      ((sizeStep st).buf.length : ℤ) = v ∧
      dlookup "size" (finalizeReport (sizeStep st)) = some (true, .v (.i v)))) ∧
    ((v ≤ (st.buf.length : ℤ) →
      (sizeStep st).buf = st.buf ∧
      dlookup "size" (finalizeReport (sizeStep st)) = some (false, .v (.i v)))) := by
  have hsz : sizeStep st =
      if 0 < intVal (.i v) - (st.buf.length : ℤ) then
        { mfInsert st (pyRepeat (enc " ") (intVal (.i v) - (st.buf.length : ℤ))) with
          toChange := dictErase "size"
            (mfInsert st (pyRepeat (enc " ")
              (intVal (.i v) - (st.buf.length : ℤ)))).toChange,
          report := dictSet "size" (.v (.i v))
            (mfInsert st (pyRepeat (enc " ")
              (intVal (.i v) - (st.buf.length : ℤ)))).report }
      else st := by
    unfold sizeStep
    rw [hlk]
  constructor
  · intro hgrow
    have hpos : 0 < intVal (.i v) - (st.buf.length : ℤ) := by
      simp only [intVal]
      omega
    rw [hsz, if_pos hpos]
    constructor
    · show (((mfInsert st (pyRepeat (enc " ") (v - (st.buf.length : ℤ)))).buf.length : ℤ)) = v
      unfold mfInsert
      rw [insert_into_mmap_len st.buf _ st.off hoff, pyRepeat_length]
      simp only [enc, intVal]
      simp
      omega
    · rw [finalizeReport_frame _ "size"
        (by exact not_mem_dictKeys_dictErase "size" st.toChange)]
      show (dlookup "size" (dictSet "size" (.v (.i v)) st.report)).map wrapR = _
      rw [dlookup_dictSet_self]
      rfl
  · intro hshrink
    have hneg : ¬ 0 < intVal (.i v) - (st.buf.length : ℤ) := by
      simp only [intVal]
      omega
    rw [hsz, if_neg hneg]
    exact ⟨rfl, finalizeReport_leftover st "size" (.i v) hlk hnd⟩

/-- C7 witness: requesting size 5 over a 2-byte buffer pads to exactly
5 bytes with a successful report entry, and requesting size 1 leaves the
buffer unchanged with an unsuccessful report entry. -/
theorem c7_size_padding_witness :
    (((sizeStep c7st).buf.length : ℤ) = 5 ∧
      dlookup "size" (finalizeReport (sizeStep c7st)) = some (true, .v (.i 5))) ∧
    ((sizeStep c7st').buf = c7st'.buf ∧
      dlookup "size" (finalizeReport (sizeStep c7st')) = some (false, .v (.i 1))) := by
  constructor
  · exact (c7_size_padding c7st 5 (by decide) (by decide) (by decide)).1 (by decide)
  · exact (c7_size_padding c7st' 1 (by decide) (by decide) (by decide)).2 (by decide)

/-! ## C4, C5 and C9: the ported-code slips, evaluated at concrete inputs -/

/-- C4 evidence.  On a document reading `%PDF-1.3` with the version
digit at byte 7 and `version = 5` accepted, the version step overwrites
exactly one byte in place (length unchanged), records success and
consumes the feature — but the byte written is the raw integer 5, not
the digit character `'5'` (byte 53) that the claim (and the original
python2 line `mm[...] = str(...)`) prescribes. -/
theorem c4_version_raw_byte :
    (versionStep c4ctx c4st).buf = [37, 80, 68, 70, 45, 49, 46, 5] ∧
    (versionStep c4ctx c4st).buf.length = c4st.buf.length ∧
    Char.toNat '5' = 53 ∧
    (versionStep c4ctx c4st).buf[7]? = some 5 ∧
    (versionStep c4ctx c4st).buf[7]? ≠ some (Char.toNat '5') ∧
    dlookup "version" (versionStep c4ctx c4st).report = some (.v (.i 5)) ∧
    dlookup "version" (versionStep c4ctx c4st).toChange = none := by
  decide

/-- C5 evidence.  With `createdate_tz = 3600` requested,
`createdate_ts` not requested, and a document whose creation-date epoch
is 100 and modification-date epoch is 200, the creation-date string the
step composes and inserts renders the modification date's epoch (200),
not the creation date's own epoch (100). -/
theorem c5_createdate_renders_moddate_epoch :
    c5ctx.fv "createdate_ts" = .i 100 ∧
    c5ctx.fv "moddate_ts" = .i 200 ∧
    c5ctx.tsRenderCreate 200 = [200] ∧
    c5ctx.tsRenderCreate 100 = [100] ∧
    (createdateStep c5ctx c5st).buf =
      enc "<xap:CreateDate>" ++ [200] ++ [43, 77] ++ enc "</xap:CreateDate>" ∧
    (createdateStep c5ctx c5st).buf ≠
      enc "<xap:CreateDate>" ++ [100] ++ [43, 77] ++ enc "</xap:CreateDate>" := by
  decide

/-- C9 evidence.  Per-feature failures do not cover the in-place date
overwrite: the accepted, in-bounds request `moddate_ts = 5` on a
document with an existing anchored `/ModDate` date text of the same
rendered length drives the moddate step into `mm.write(new_moddate)`
with a `str` argument, which raises `TypeError` in Python 3 — the run
aborts with no result dictionary and no report at all, instead of
returning normally with the per-feature report the claim promises (the
last conjunct states the return the intended overwrite would have
produced). -/
theorem c9_inplace_date_write_aborts :
    dlookup "moddate_ts" (step1 c9ctx c9req).toChange = some (PyVal.i 5) ∧
    preFinalE c9ctx c9req = none ∧
    modify_fileE c9ctx c9req = none ∧
    dlookup "moddate_ts" (modify_file c9ctx c9req).report =
      some (true, .v (.i 5)) := by
  have h : preFinalE c9ctx c9req = none := by decide
  refine ⟨by decide, h, ?_, by decide⟩
  unfold modify_fileE
  rw [h]
  rfl

/-! ## C6: metadata composition -/

/-- C6 counterexample.  The request `author_lc = 0` is accepted whenever
the document's current `author_lc` is nonzero (here 2), yet the metadata
step performs no insertion at all for the field — the buffer is
untouched, no wrapped template string is written — while the sub-feature
is still consumed and recorded as a success; this refutes the claim's
"written by a single insertion" for the all-zero-counts case. -/
theorem c6_zero_count_no_insertion :
    pyEq (.i 2) (.i 0) = false ∧
    check_feature_change_valid (descOf "author_lc") (.i 2) (.i 0) = .ok ∧
    (metadataStep c6st).buf = c6st.buf ∧
    (metadataStep c6st).off = c6st.off ∧
    dlookup "author_lc" (metadataStep c6st).report = some (.v (.i 0)) ∧
    dlookup "author_lc" (metadataStep c6st).toChange = none := by
  decide

theorem foldl_append_gen {σ : Type} (C : σ → List Nat) :
    ∀ (l : List σ) (acc : List Nat),
      l.foldl (fun a s => a ++ C s) acc = acc ++ l.foldl (fun a s => a ++ C s) [] := by
  intro l
  induction l with
  | nil =>
    intro acc
    simp
  | cons x t ih =>
    intro acc
    rw [List.foldl_cons, ih (acc ++ C x), List.foldl_cons,
      ih (List.nil ++ C x)]
    simp

theorem fieldAddendum_cons (pfx suf : String) (rest : List String)
    (tc : List (String × PyVal)) :
    fieldAddendum pfx (suf :: rest) tc =
      metaClassChunk suf (intVal ((dlookup (pfx ++ "_" ++ suf) tc).getD (.i 0))) ++
        fieldAddendum pfx rest tc := by
  unfold fieldAddendum
  rw [List.foldl_cons, foldl_append_gen]
  simp

theorem fieldAddendum_congr (pfx : String) (subs : List String)
    (tc1 tc2 : List (String × PyVal))
    (h : ∀ suf ∈ subs, dlookup (pfx ++ "_" ++ suf) tc1 =
      dlookup (pfx ++ "_" ++ suf) tc2) :
    fieldAddendum pfx subs tc1 = fieldAddendum pfx subs tc2 := by
  induction subs with
  | nil => rfl
  | cons suf rest ih =>
    rw [fieldAddendum_cons, fieldAddendum_cons,
      h suf (List.mem_cons_self _ _),
      ih (fun s hs => h s (List.mem_cons_of_mem _ hs))]

theorem metaLoop_spec (pfx : String) :
    ∀ (subs : List String) (acc : List Nat) (st : MSt),
      subs.Nodup →
      (∀ suf ∈ subs, (dlookup (pfx ++ "_" ++ suf) st.toChange).isSome) →
      (subs.foldl (metaLoopBody pfx) (acc, st)).1 =
        acc ++ fieldAddendum pfx subs st.toChange ∧
      (subs.foldl (metaLoopBody pfx) (acc, st)).2.buf = st.buf ∧
      (subs.foldl (metaLoopBody pfx) (acc, st)).2.off = st.off ∧
      (∀ k, (∀ suf ∈ subs, k ≠ pfx ++ "_" ++ suf) →
        dlookup k (subs.foldl (metaLoopBody pfx) (acc, st)).2.toChange =
          dlookup k st.toChange ∧
        dlookup k (subs.foldl (metaLoopBody pfx) (acc, st)).2.report =
          dlookup k st.report) ∧
      (∀ suf ∈ subs,
        dlookup (pfx ++ "_" ++ suf)
          (subs.foldl (metaLoopBody pfx) (acc, st)).2.toChange = none ∧
        dlookup (pfx ++ "_" ++ suf)
          (subs.foldl (metaLoopBody pfx) (acc, st)).2.report =
          some (.v ((dlookup (pfx ++ "_" ++ suf) st.toChange).getD (.i 0)))) := by
  intro subs
  induction subs with
  | nil =>
    intro acc st _ _
    refine ⟨by simp [fieldAddendum], rfl, rfl, fun k _ => ⟨rfl, rfl⟩, ?_⟩
    intro suf hsuf
    exact absurd hsuf (List.not_mem_nil suf)
  | cons suf rest ih =>
    intro acc st hnd hks
    rw [List.nodup_cons] at hnd
    have hkey_ne : ∀ s ∈ rest, pfx ++ "_" ++ s ≠ pfx ++ "_" ++ suf := by
      intro s hs he
      exact hnd.1 (strAppend_right_inj he ▸ hs)
    have hbody2 : (metaLoopBody pfx (acc, st) suf).2 =
        { st with
          report := dictSet (pfx ++ "_" ++ suf)
            (.v ((dlookup (pfx ++ "_" ++ suf) st.toChange).getD (.i 0))) st.report,
          toChange := dictErase (pfx ++ "_" ++ suf) st.toChange } := rfl
    have hbody1 : (metaLoopBody pfx (acc, st) suf).1 =
        acc ++ metaClassChunk suf
          (intVal ((dlookup (pfx ++ "_" ++ suf) st.toChange).getD (.i 0))) := rfl
    have hks' : ∀ s ∈ rest,
        (dlookup (pfx ++ "_" ++ s) (metaLoopBody pfx (acc, st) suf).2.toChange).isSome := by
      intro s hs
      rw [hbody2]
      show (dlookup (pfx ++ "_" ++ s) (dictErase (pfx ++ "_" ++ suf) st.toChange)).isSome
      rw [dlookup_dictErase_ne _ (hkey_ne s hs)]
      exact hks s (List.mem_cons_of_mem _ hs)
    obtain ⟨ih1, ih2, ih3, ih4, ih5⟩ := ih (metaLoopBody pfx (acc, st) suf).1
      (metaLoopBody pfx (acc, st) suf).2 hnd.2 hks'
    have hlk_rest : ∀ s ∈ rest,
        dlookup (pfx ++ "_" ++ s) (metaLoopBody pfx (acc, st) suf).2.toChange =
          dlookup (pfx ++ "_" ++ s) st.toChange := by
      intro s hs
      rw [hbody2]
      exact dlookup_dictErase_ne _ (hkey_ne s hs)
    refine ⟨?_, ?_, ?_, ?_, ?_⟩
    · rw [List.foldl_cons, ih1, hbody1, fieldAddendum_cons, List.append_assoc]
      congr 1
      congr 1
      exact fieldAddendum_congr pfx rest _ _ hlk_rest
    · rw [List.foldl_cons, ih2, hbody2]
    · rw [List.foldl_cons, ih3, hbody2]
    · intro k hk
      have hk_suf : k ≠ pfx ++ "_" ++ suf := hk suf (List.mem_cons_self _ _)
      have hk_rest : ∀ s ∈ rest, k ≠ pfx ++ "_" ++ s :=
        fun s hs => hk s (List.mem_cons_of_mem _ hs)
      obtain ⟨h4t, h4r⟩ := ih4 k hk_rest
      rw [List.foldl_cons]
      constructor
      · rw [h4t, hbody2]
        exact dlookup_dictErase_ne _ hk_suf
      · rw [h4r, hbody2]
        exact dlookup_dictSet_ne _ _ hk_suf
    · intro s hs
      rcases List.mem_cons.mp hs with rfl | hs'
      · obtain ⟨h4t, h4r⟩ := ih4 (pfx ++ "_" ++ s)
          (fun s' hs' => (hkey_ne s' hs').symm)
        rw [List.foldl_cons]
        constructor
        · rw [h4t, hbody2]
          exact dlookup_dictErase_self _ _
        · rw [h4r, hbody2]
          exact dlookup_dictSet_self _ _ _
      · obtain ⟨h5t, h5r⟩ := ih5 s hs'
        rw [List.foldl_cons]
        refine ⟨h5t, ?_⟩
        rw [h5r, hlk_rest s hs']

theorem flatten_replicate_singleton (n : ℕ) (b : Nat) :
    (List.replicate n ([b] : List Nat)).flatten = List.replicate n b := by
  induction n with
  | zero => rfl
  | succ m ih => simp [List.replicate_succ, ih]

theorem pyRepeat_single (b : Nat) (m : ℤ) :
    pyRepeat [b] m = List.replicate m.toNat b := by
  unfold pyRepeat
  split
  · rename_i h
    rw [Int.toNat_of_nonpos h]
    rfl
  · exact flatten_replicate_singleton _ b

theorem metaClassChunk_eq (s : String) (hs : s ∈ metaSufs) (m : ℤ) :
    metaClassChunk s m = List.replicate m.toNat (repByte s) := by
  simp only [metaSufs, List.mem_cons, List.not_mem_nil, or_false] at hs
  rcases hs with rfl | rfl | rfl | rfl | rfl <;>
    simp [metaClassChunk, repByte, pyRepeat_single]

theorem repByte_ne : ∀ s ∈ metaSufs, ∀ t ∈ metaSufs, s ≠ t → repByte s ≠ repByte t := by
  decide

theorem fieldAddendum_count (pfx : String) :
    ∀ (subs : List String) (tc : List (String × PyVal)),
      (∀ s ∈ subs, s ∈ metaSufs) → subs.Nodup →
      ∀ suf ∈ metaSufs,
      (fieldAddendum pfx subs tc).count (repByte suf) =
        if suf ∈ subs then
          (intVal ((dlookup (pfx ++ "_" ++ suf) tc).getD (.i 0))).toNat
        else 0 := by
  intro subs
  induction subs with
  | nil =>
    intro tc _ _ suf _
    simp [fieldAddendum]
  | cons s rest ih =>
    intro tc hsub hnd suf hsuf
    rw [List.nodup_cons] at hnd
    rw [fieldAddendum_cons, List.count_append,
      metaClassChunk_eq s (hsub s (List.mem_cons_self _ _)),
      ih tc (fun x hx => hsub x (List.mem_cons_of_mem _ hx)) hnd.2 suf hsuf]
    by_cases he : suf = s
    · subst he
      rw [List.count_replicate]
      simp [hnd.1]
    · have hne : repByte suf ≠ repByte s :=
        Ne.symm (repByte_ne s (hsub s (List.mem_cons_self _ _)) suf hsuf
          (fun h => he h.symm))
      rw [List.count_replicate, if_neg (by simp [Ne.symm hne]), Nat.zero_add]
      by_cases hr : suf ∈ rest
      · rw [if_pos hr, if_pos (List.mem_cons_of_mem _ hr)]
      · rw [if_neg hr, if_neg (by
          intro hc
          rcases List.mem_cons.mp hc with h | h
          · exact he h
          · exact hr h)]

theorem metaMatch_sufs : ∀ fld ∈ _metadata_feats, ∀ suf ∈ metaSufs,
    metaMatch fld.1 (fld.1 ++ "_" ++ suf) = true := by
  decide

theorem strDrop_sufs : ∀ fld ∈ _metadata_feats, ∀ suf ∈ metaSufs,
    strDrop (fld.1 ++ "_" ++ suf) (fld.1.length + 1) = suf := by
  decide

theorem meta_sufs_catalog : ∀ fld ∈ _metadata_feats,
    ∀ e ∈ _pdfrate_feature_descriptions,
      metaMatch fld.1 e.1 = true → e.2.edit = 'y' →
      strDrop e.1 (fld.1.length + 1) ∈ metaSufs := by
  decide

theorem fieldSubs_sub_metaSufs {fld : String × List Nat × List Nat}
    (hfld : fld ∈ _metadata_feats) {tc : List (String × PyVal)}
    (hv : ∀ kv ∈ tc, (descOf kv.1).edit = 'y') :
    ∀ s ∈ fieldSubs fld.1 tc, s ∈ metaSufs := by
  intro s hs
  obtain ⟨kv, hkv, rfl⟩ := List.mem_map.mp hs
  have hmem := List.mem_of_mem_filter hkv
  have hmatch : metaMatch fld.1 kv.1 = true := by
    have := List.of_mem_filter hkv
    simpa using this
  have hy := hv kv hmem
  exact meta_sufs_catalog fld hfld (kv.1, descOf kv.1) (descOf_edit_mem hy) hmatch hy

theorem metaFieldFinish_dicts (fld : String × List Nat × List Nat)
    (r : List Nat × MSt) :
    (metaFieldFinish fld r).toChange = r.2.toChange ∧
    (metaFieldFinish fld r).report = r.2.report := by
  unfold metaFieldFinish
  split
  · exact ⟨rfl, rfl⟩
  · exact ⟨rfl, rfl⟩

/-- C6 (amended).  Metadata composition is additive and atomic per
field, with one amendment forced by the all-zero edge: the addendum the
field composes contains exactly the requested count of each requested
class's representative character and zero of any unrequested class's;
when the addendum is nonempty it is wrapped in the field's template and
written by a single insertion at the cursor, but when every requested
count is zero no insertion is performed at all (the template is not
written); in both cases all requested sub-features of the field are
consumed and reported together; and Step 4 applies this per-field body
over the six metadata fields. -/
theorem c6_metadata_composition (fld : String × List Nat × List Nat)
    (hfld : fld ∈ _metadata_feats) (st : MSt)
    (hv : ∀ kv ∈ st.toChange, (descOf kv.1).edit = 'y')
    (hnd : (dictKeys st.toChange).Nodup) :
    ((∀ suf ∈ metaSufs, ∀ m : ℤ,
        dlookup (fld.1 ++ "_" ++ suf) st.toChange = some (.i m) →
        (fieldAddendum fld.1 (fieldSubs fld.1 st.toChange) st.toChange).count
          (repByte suf) = m.toNat) ∧
     (∀ suf ∈ metaSufs,
        dlookup (fld.1 ++ "_" ++ suf) st.toChange = none →
        (fieldAddendum fld.1 (fieldSubs fld.1 st.toChange) st.toChange).count
          (repByte suf) = 0)) ∧
    ((fieldAddendum fld.1 (fieldSubs fld.1 st.toChange) st.toChange ≠ [] →
        (metaFieldStep st fld).buf =
          (_insert_into_mmap st.buf st.off
            (fld.2.1 ++
              fieldAddendum fld.1 (fieldSubs fld.1 st.toChange) st.toChange ++
              fld.2.2)).1 ∧
        (metaFieldStep st fld).off =
          (_insert_into_mmap st.buf st.off
            (fld.2.1 ++
              fieldAddendum fld.1 (fieldSubs fld.1 st.toChange) st.toChange ++
              fld.2.2)).2) ∧
     (fieldAddendum fld.1 (fieldSubs fld.1 st.toChange) st.toChange = [] →
        (metaFieldStep st fld).buf = st.buf ∧
        (metaFieldStep st fld).off = st.off)) ∧
    (∀ suf ∈ metaSufs, ∀ v : PyVal,
        dlookup (fld.1 ++ "_" ++ suf) st.toChange = some v →
        dlookup (fld.1 ++ "_" ++ suf) (metaFieldStep st fld).toChange = none ∧
        dlookup (fld.1 ++ "_" ++ suf) (metaFieldStep st fld).report =
          some (.v v)) ∧
    metadataStep = fun s => _metadata_feats.foldl metaFieldStep s := by
  have hsubnd := fieldSubs_nodup hfld hv hnd
  have hsubkeys := fieldSubs_mem_keys hfld hv
  have hsubsome : ∀ suf ∈ fieldSubs fld.1 st.toChange,
      (dlookup (fld.1 ++ "_" ++ suf) st.toChange).isSome := by
    intro suf hs
    rw [← mem_dictKeys_iff_isSome]
    exact hsubkeys suf hs
  obtain ⟨sp1, sp2, sp3, sp4, sp5⟩ :=
    metaLoop_spec fld.1 (fieldSubs fld.1 st.toChange) [] st hsubnd hsubsome
  have hsubmem : ∀ suf ∈ metaSufs, ∀ v : PyVal,
      dlookup (fld.1 ++ "_" ++ suf) st.toChange = some v →
      suf ∈ fieldSubs fld.1 st.toChange := by
    intro suf hsuf v hlk
    refine List.mem_map.mpr
      ⟨(fld.1 ++ "_" ++ suf, v), ?_, strDrop_sufs fld hfld suf hsuf⟩
    refine List.mem_filter.mpr ⟨dlookup_some_mem hlk, ?_⟩
    simpa using metaMatch_sufs fld hfld suf hsuf
  have hsubnotmem : ∀ suf ∈ metaSufs,
      dlookup (fld.1 ++ "_" ++ suf) st.toChange = none →
      suf ∉ fieldSubs fld.1 st.toChange := by
    intro suf _ hlk hmem
    rw [dlookup_eq_none_iff] at hlk
    exact hlk (hsubkeys suf hmem)
  have hfs : metaFieldStep st fld =
      metaFieldFinish fld ((fieldSubs fld.1 st.toChange).foldl
        (metaLoopBody fld.1) ([], st)) := rfl
  set r := (fieldSubs fld.1 st.toChange).foldl (metaLoopBody fld.1) ([], st)
    with hr
  have hr1 : r.1 = fieldAddendum fld.1 (fieldSubs fld.1 st.toChange) st.toChange := by
    rw [hr]
    rw [sp1]
    simp
  refine ⟨⟨?_, ?_⟩, ⟨?_, ?_⟩, ?_, rfl⟩
  · intro suf hsuf m hlk
    rw [fieldAddendum_count fld.1 _ st.toChange (fieldSubs_sub_metaSufs hfld hv)
      hsubnd suf hsuf, if_pos (hsubmem suf hsuf _ hlk), hlk]
    rfl
  · intro suf hsuf hlk
    rw [fieldAddendum_count fld.1 _ st.toChange (fieldSubs_sub_metaSufs hfld hv)
      hsubnd suf hsuf, if_neg (hsubnotmem suf hsuf hlk)]
  · intro hne
    rw [hfs]
    unfold metaFieldFinish
    rw [if_pos (show r.1 ≠ [] by rw [hr1]; exact hne)]
    constructor
    · show (_insert_into_mmap r.2.buf r.2.off (fld.2.1 ++ r.1 ++ fld.2.2)).1 = _
      rw [hr1, sp2, sp3]
    · show (_insert_into_mmap r.2.buf r.2.off (fld.2.1 ++ r.1 ++ fld.2.2)).2 = _
      rw [hr1, sp2, sp3]
  · intro hz
    rw [hfs]
    unfold metaFieldFinish
    rw [if_neg (show ¬ r.1 ≠ [] by rw [hr1, hz]; simp)]
    exact ⟨sp2, sp3⟩
  · intro suf hsuf v hlk
    obtain ⟨h5t, h5r⟩ := sp5 suf (hsubmem suf hsuf v hlk)
    have hd := metaFieldFinish_dicts fld r
    rw [hfs]
    constructor
    · rw [hd.1]
      exact h5t
    · rw [hd.2, h5r, hlk]
      rfl

/-- C6 witness: requesting `author_lc = 3` and `author_uc = 2` with no
other author sub-feature produces an addendum with exactly three `'a'`
bytes, two `'Z'` bytes and zero dots, and both sub-features are
consumed and reported. -/
theorem c6_metadata_composition_witness :
    (fieldAddendum "author" (fieldSubs "author" c6wst.toChange)
      c6wst.toChange).count 97 = 3 ∧
    (fieldAddendum "author" (fieldSubs "author" c6wst.toChange)
      c6wst.toChange).count 90 = 2 ∧
    (fieldAddendum "author" (fieldSubs "author" c6wst.toChange)
      c6wst.toChange).count 46 = 0 ∧
    dlookup "author_lc"
      (metaFieldStep c6wst ("author", enc " /Author(", enc ")\n")).report =
      some (.v (.i 3)) := by
  have h := c6_metadata_composition ("author", enc " /Author(", enc ")\n")
    (by decide) c6wst (by decide) (by decide)
  refine ⟨?_, ?_, ?_, ?_⟩
  · exact h.1.1 "lc" (by decide) 3 (by decide)
  · exact h.1.1 "uc" (by decide) 2 (by decide)
  · exact h.1.2 "dot" (by decide) (by decide)
  · exact (h.2.2.1 "lc" (by decide) (.i 3) (by decide)).2

end FeatureEditP3
